import Mathlib

/-!
Verification of the aegis-core event-driven execution and recovery subsystem.

This file gives a shallow embedding of the three components under scrutiny:
the in-memory event bus (packages/core/src/bus.ts), the agent execution loop
(runtime agent-loop), and the SQLite-backed session store
(SQLiteSessionStore).  TypeScript records become Lean structures, JavaScript
exceptions become explicit error results, mutable fields become explicit
state threading, and fresh uuids / wall-clock reads are drawn from counters
carried in the state.  JavaScript truthiness is modelled where the source
relies on it (an empty string and an absent value are falsy; an empty array
is truthy).
-/

namespace Aegis

/-! ### Foundational data (packages/types) -/

/-- Conversation roles, from the ConversationMessage type. -/
inductive Role where
  | system
  | user
  | assistant
  | tool
deriving DecidableEq, Repr

/-- Trace context: traceId shared along a causal chain, fresh spanId per
event, parentSpanId pointing at the causing span. -/
structure TraceContext where
  traceId : String
  spanId : String
  parentSpanId : Option String := none
deriving DecidableEq, Repr

/-- Event payloads.  The bus is payload-generic in the source; the loop only
constructs complete/error/turn payloads, so a closed sum suffices. -/
inductive EventPayload where
  | complete (message : String)
  | error (error : String)
  | turn (message : String) (sessionId : Option String)
  | other (data : String)
deriving DecidableEq, Repr

/-- An AegisEvent.  Optional agent ids are Option String; topics are the
string literals of the EventTopic union. -/
structure AegisEvent where
  id : String
  topic : String
  payload : EventPayload
  traceCtx : TraceContext
  timestamp : String
  sourceAgentId : Option String := none
  targetAgentId : Option String := none
deriving DecidableEq, Repr

/-- An EventFilter: optional topic list, optional agent ids, optional
predicate. -/
structure EventFilter where
  topics : Option (List String) := none
  sourceAgentId : Option String := none
  targetAgentId : Option String := none
  predicate : Option (AegisEvent → Bool) := none

/-! ### InMemoryEventBus.matches (bus.ts, lines 89-103)

The source is a chain of JavaScript guard clauses.  `filter.topics && ...`
is entered whenever the topics array is present (an empty array is truthy);
`filter.sourceAgentId && ...` is entered only for a present, nonempty
string, since an empty string is falsy. -/

/-- JavaScript truthiness of an optional string field. -/
def truthyStr : Option String → Bool
  | none => false
  | some s => !(decide (s = ""))

/-- Shallow embedding of InMemoryEventBus.matches (the name matches is a Lean keyword). -/
def matchesFilter (event : AegisEvent) (filter : EventFilter) : Bool :=
  if (match filter.topics with
      | some ts => !(ts.contains event.topic)
      | none => false) then false
  else if (truthyStr filter.sourceAgentId &&
      !(decide (event.sourceAgentId = filter.sourceAgentId))) then false
  else if (truthyStr filter.targetAgentId &&
      !(decide (event.targetAgentId = filter.targetAgentId))) then false
  else if (match filter.predicate with
      | some p => !(p event)
      | none => false) then false
  else true

/-- A sample event used to evaluate the filter semantics. -/
def sampleCompleteEvent : AegisEvent :=
  { id := "evt-1"
    topic := "agent.complete"
    payload := .complete "Done"
    traceCtx := { traceId := "tr", spanId := "sp" }
    timestamp := "t0" }

/-- The filter carrying an explicitly empty topics array. -/
def emptyTopicsFilter : EventFilter := { topics := some [] }

/-! ### InMemoryEventBus.request (bus.ts, lines 62-87)

The request primitive registers a temporary subscription for the reply
filter, publishes the request event, and then reacts to whichever of three
things happens first: a bus event is delivered to the temporary handler, the
timer fires, or the publish promise rejects.  Each of those callbacks clears
the timer, removes the temporary subscription and settles the promise; a
JavaScript promise keeps the first settlement.  We embed this as a state
machine folded over the sequence of callback firings. -/

/-- Rejection message built by the timeout callback. -/
def requestTimeoutMsg (eventId : String) : String :=
  "Timeout waiting for response to event " ++ eventId

/-- Things that can fire after request has subscribed and published: a bus
event delivered to the temporary subscription, the timer, or the rejection
of the publish promise. -/
inductive ReqOcc where
  | reply (e : AegisEvent)
  | timeoutFire
  | publishFail (err : String)

/-- The request call's mutable state: the promise settlement (ok = resolved
with the reply, error = rejected), whether the temporary subscription is
still registered, and whether the timer is still pending. -/
structure ReqState where
  settled : Option (Except String AegisEvent)
  subActive : Bool
  timerActive : Bool

/-- State right after subscribe and the publish call: promise pending,
subscription registered, timer armed. -/
def reqInit : ReqState := { settled := none, subActive := true, timerActive := true }

/-- A promise keeps its first settlement; later resolve/reject calls are
no-ops. -/
def firstSettle (cur : Option (Except String AegisEvent))
    (o : Except String AegisEvent) : Option (Except String AegisEvent) :=
  match cur with
  | some x => some x
  | none => some o

/-- One callback firing.  The reply handler runs only while the temporary
subscription is registered and the event passes the reply filter (the bus
delivers only matching events to it); the timeout callback runs only if the
timer was not cleared; the publish rejection handler clears the timer,
unsubscribes and rejects. -/
def reqStep (flt : EventFilter) (timeoutMsg : String) (s : ReqState) :
    ReqOcc → ReqState
  | .reply e =>
    if s.subActive && matchesFilter e flt then
      { settled := firstSettle s.settled (.ok e)
        subActive := false, timerActive := false }
    else s
  | .timeoutFire =>
    if s.timerActive then
      { settled := firstSettle s.settled (.error timeoutMsg)
        subActive := false, timerActive := false }
    else s
  | .publishFail err =>
    { settled := firstSettle s.settled (.error err)
      subActive := false, timerActive := false }

/-- Run a request against the sequence of callback firings that follow it. -/
def runRequest (flt : EventFilter) (timeoutMsg : String)
    (occs : List ReqOcc) : ReqState :=
  occs.foldl (reqStep flt timeoutMsg) reqInit

/-- An occurrence that settles the pending request: any matching reply, the
timer, or a publish failure. -/
def effectiveOcc (flt : EventFilter) : ReqOcc → Bool
  | .reply e => matchesFilter e flt
  | .timeoutFire => true
  | .publishFail _ => true

/-- The settlement each kind of occurrence produces. -/
def occOutcome (timeoutMsg : String) : ReqOcc → Except String AegisEvent
  | .reply e => .ok e
  | .timeoutFire => .error timeoutMsg
  | .publishFail err => .error err

/-! ### SQLiteSessionStore (packages/persistence, in fs.ts after the
separator)

The database holds a sessions table and an append-only events table.  Rows
are modelled as structures; the tables as lists in rowid (insertion) order.
ISO-8601 timestamps are TEXT in SQLite and compare bytewise, which we model
by lexicographic comparison on the characters of a Lean String. -/

/-- A message of a session history, as accepted and returned by the store. -/
structure ConversationMessage where
  role : Role
  content : String
  timestamp : String
  toolCallId : Option String := none
deriving DecidableEq, Repr

/-- A row of the sessions table. -/
structure SessionRow where
  id : String
  agentId : String
  status : String
  depth : Nat
  parentSessionId : Option String
  createdAt : String
  updatedAt : String
deriving DecidableEq, Repr

/-- A row of the events table.  The uuid primary key is modelled by a
counter value; rows appear in the list in rowid (insertion) order. -/
structure EventRow where
  id : Nat
  sessionId : String
  role : Role
  content : String
  timestamp : String
  toolCallId : Option String
deriving DecidableEq, Repr

/-- The durable database file: both tables plus the uuid source. -/
structure DB where
  sessions : List SessionRow
  events : List EventRow
  uuidCtr : Nat
deriving DecidableEq, Repr

/-- The Session record returned by get/create. -/
structure Session where
  id : String
  agentId : String
  createdAt : String
  lastActiveAt : String
  parentSessionId : Option String := none
  depth : Nat
  history : List ConversationMessage
deriving DecidableEq, Repr

/-- The patch accepted by update: both fields optional. -/
structure SessionPatch where
  lastActiveAt : Option String := none
  history : Option (List ConversationMessage) := none
deriving Repr

/-- Bytewise strict comparison of two TEXT values, as SQLite orders them. -/
def strLtB (a b : String) : Bool :=
  go a.data b.data
where
  go : List Char → List Char → Bool
    | [], [] => false
    | [], _ :: _ => true
    | _ :: _, [] => false
    | c :: cs, d :: ds => decide (c < d) || (decide (c = d) && go cs ds)

/-- Insert a row into a list sorted by timestamp, after every row whose
timestamp is strictly smaller and before the rest.  Folded from the right
this realises the index scan of ORDER BY timestamp ASC: rows with equal
timestamps stay in rowid order. -/
def insertTs (x : EventRow) : List EventRow → List EventRow
  | [] => [x]
  | f :: rest =>
    if strLtB f.timestamp x.timestamp then f :: insertTs x rest
    else x :: f :: rest

/-- The ORDER BY timestamp ASC scan over the events of one session. -/
def sortByTs (l : List EventRow) : List EventRow :=
  l.foldr insertTs []

/-- SELECT * FROM sessions WHERE id = ?. -/
def DB.findSession (db : DB) (id : String) : Option SessionRow :=
  db.sessions.find? (fun r => decide (r.id = id))

/-- SELECT * FROM events WHERE session_id = ?, in rowid order. -/
def DB.eventsFor (db : DB) (id : String) : List EventRow :=
  db.events.filter (fun e => decide (e.sessionId = id))

/-- Project an event row back to the conversation message it recorded. -/
def EventRow.toMsg (e : EventRow) : ConversationMessage :=
  { role := e.role, content := e.content, timestamp := e.timestamp
    toolCallId := e.toolCallId }

/-- SQLiteSessionStore.get: session metadata plus the history replayed from
the events ledger in ascending timestamp order. -/
def DB.get (db : DB) (id : String) : Option Session :=
  match db.findSession id with
  | none => none
  | some row =>
    some { id := row.id
           agentId := row.agentId
           createdAt := row.createdAt
           lastActiveAt := row.updatedAt
           parentSessionId := row.parentSessionId
           depth := row.depth
           history := (sortByTs (db.eventsFor id)).map EventRow.toMsg }

/-- Fresh event rows for the messages not yet stored, with uuids drawn from
the counter, appended in insertion order. -/
def mkRows (sid : String) (ctr : Nat) : List ConversationMessage → List EventRow
  | [] => []
  | m :: rest =>
    { id := ctr, sessionId := sid, role := m.role, content := m.content
      timestamp := m.timestamp, toolCallId := m.toolCallId } :: mkRows sid (ctr + 1) rest

/-- SQLiteSessionStore.update: always refresh updated_at (to the supplied
lastActiveAt, else to now); when a nonempty history is supplied, count the
events already stored for the session and insert exactly the messages past
that count.  With foreign keys on, inserting for a missing session id fails,
rolling back the insert transaction (the sessions UPDATE is a no-op then). -/
def DB.update (db : DB) (id : String) (patch : SessionPatch) (now : String) :
    Except String DB :=
  let newUpdatedAt := match patch.lastActiveAt with
    | some t => t
    | none => now
  let db1 : DB :=
    { db with sessions := db.sessions.map (fun r =>
        if r.id = id then { r with updatedAt := newUpdatedAt } else r) }
  match patch.history with
  | none => .ok db1
  | some hist =>
    if hist.length > 0 then
      let existingCount := (db1.eventsFor id).length
      let newMessages := hist.drop existingCount
      if newMessages.length > 0 && (db1.findSession id).isNone then
        .error "FOREIGN KEY constraint failed"
      else
        .ok { db1 with
                events := db1.events ++ mkRows id db1.uuidCtr newMessages
                uuidCtr := db1.uuidCtr + newMessages.length }
    else .ok db1

/-- SQLiteSessionStore.create: allocate an id, compute depth from the
parent (0 for a missing parent row, matching getDepth), insert the session
row. -/
def DB.create (db : DB) (agentId : String) (parentSessionId : Option String)
    (now : String) : DB × Session :=
  let id := "session-" ++ toString db.uuidCtr
  let depth := match parentSessionId with
    | some p => (match db.findSession p with
        | some r => r.depth
        | none => 0) + 1
    | none => 0
  let row : SessionRow :=
    { id := id, agentId := agentId, status := "active", depth := depth
      parentSessionId := parentSessionId, createdAt := now, updatedAt := now }
  ({ db with sessions := db.sessions ++ [row], uuidCtr := db.uuidCtr + 1 },
   { id := id, agentId := agentId, createdAt := now, lastActiveAt := now
     parentSessionId := parentSessionId, depth := depth, history := [] })

/-- Closing the store and constructing a new one on the same path replays
only CREATE TABLE IF NOT EXISTS migrations, which leave an existing
database unchanged. -/
def DB.reopen (db : DB) : DB := db

/-! ### Sequences of store calls (for the recovery-fidelity claims)

A client run against one session: update calls interleaved with close /
reopen pairs.  Each update passes the full current history, as the loop
does. -/

/-- One store call in a client run. -/
inductive StoreCall where
  | update (hist : List ConversationMessage) (now : String)
  | reopen

/-- Run a sequence of store calls against one session id. -/
def runCalls (id : String) : DB → List StoreCall → Except String DB
  | db, [] => .ok db
  | db, .update hist now :: rest =>
    match db.update id { history := some hist } now with
    | .ok db1 => runCalls id db1 rest
    | .error e => .error e
  | db, .reopen :: rest => runCalls id db.reopen rest

/-- The history views a well-behaved client passes: the k-th update call
passes the concatenation of the first k batches of appended messages. -/
def fullHistories (newss : List (List ConversationMessage)) :
    List (List ConversationMessage) :=
  (List.range newss.length).map (fun k => (newss.take (k + 1)).flatten)

/-- Extract the history argument of an update call. -/
def StoreCall.updateHist : StoreCall → Option (List ConversationMessage)
  | .update hist _ => some hist
  | .reopen => none

/-- Timestamps nondecreasing along a message list, in SQLite TEXT order. -/
def tsSortedMsgs (l : List ConversationMessage) : Prop :=
  List.Chain' (fun a b => strLtB b.timestamp a.timestamp = false) l

/-- Timestamps nondecreasing along a row list, in SQLite TEXT order. -/
def tsSortedRows (l : List EventRow) : Prop :=
  List.Chain' (fun a b => strLtB b.timestamp a.timestamp = false) l

/-! ### AgentLoop (runtime agent-loop module)

The loop's collaborators are abstracted exactly at the interfaces the class
consumes: the ModelAdapter is a function from the chat history to a
generation result or a thrown error; the NativeToolRegistry is a lookup
from tool name to an executable that returns text or throws; the
SessionStore is a pair of fallible get/update operations over an abstract
store state.  The mutable fields of the AgentLoop instance, the events it
publishes, and the uuid/clock sources are carried in a LoopState.  A thrown
JavaScript exception is an error result carrying the state at the throw
point, since mutations performed before a throw survive it. -/

/-- A tool call requested by the model.  The arguments record is never inspected by
the loop, which only forwards it, so a plain payload string models it. -/
structure ToolCall where
  id : String
  name : String
  arguments : String
deriving DecidableEq, Repr

/-- A message of the loop's working history (model-adapter ChatMessage).
The optional toolCalls array is modelled by a list that is empty when the
field is absent; the loop only ever tests it for emptiness or copies it. -/
structure ChatMessage where
  role : Role
  content : String
  name : Option String := none
  toolCallId : Option String := none
  toolCalls : List ToolCall := []
deriving DecidableEq, Repr

/-- A model generation result: text plus requested tool calls (an absent
toolCalls array and an empty one are used interchangeably by the loop). -/
structure GenerationResult where
  text : String
  toolCalls : List ToolCall := []
deriving DecidableEq, Repr

/-- The SessionStore interface as consumed by the loop, over an abstract
store state sigma; a returned error models a rejected promise. -/
structure StoreOps (σ : Type) where
  get : σ → String → Except String (Option Session)
  update : σ → String → List ConversationMessage → Except String σ

/-- The loop's configuration (the fields of AgentConfig it reads). -/
structure AgentConfig where
  id : String
  name : String
  systemPrompt : String
deriving Repr

/-- The loop's collaborators, fixed at construction. -/
structure LoopEnv (σ : Type) where
  gen : List ChatMessage → Except String GenerationResult
  tools : String → Option (String → Except String String)
  config : AgentConfig
  store : Option (StoreOps σ)

/-- The mutable world of one AgentLoop instance: its history and
currentSessionId fields, the store's state, the events published on the
bus so far (in publish order), a count of generate calls, and counters
feeding uuidv7 and the clock. -/
structure LoopState (σ : Type) where
  history : List ChatMessage
  currentSessionId : Option String := none
  storeState : σ
  published : List AegisEvent := []
  genCalls : Nat := 0
  nextUuid : Nat := 0
  time : Nat := 0

/-- The result of running a piece of the loop: normal return, or a thrown
exception, each carrying the state reached. -/
inductive LRes (σ : Type) where
  | ok (s : LoopState σ)
  | err (e : String) (s : LoopState σ)

/-- The state carried by a result, thrown or not. -/
def LRes.state {σ : Type} : LRes σ → LoopState σ
  | .ok s => s
  | .err _ s => s

/-- Render the uuid counter; distinct counters give distinct ids. -/
def uuidOf (n : Nat) : String := "uuid-" ++ toString n

/-- Render the clock; the loop takes ISO timestamps from Date. -/
def tsOf (n : Nat) : String := "ts-" ++ toString n

/-- AgentLoop.createEvent: fresh event id and span id, child trace context
(same traceId, parentSpanId = the cause's spanId), source set to the
configured agent id, no target. -/
def mkEvent {σ : Type} (env : LoopEnv σ) (topic : String)
    (payload : EventPayload) (trace : TraceContext) (st : LoopState σ) :
    AegisEvent × LoopState σ :=
  ({ id := uuidOf st.nextUuid
     topic := topic
     payload := payload
     traceCtx := { traceId := trace.traceId, spanId := uuidOf (st.nextUuid + 1)
                   parentSpanId := some trace.spanId }
     timestamp := tsOf st.time
     sourceAgentId := some env.config.id
     targetAgentId := none },
   { st with nextUuid := st.nextUuid + 2, time := st.time + 1 })

/-- Publish on the in-memory bus: the event is recorded; the bus awaits the
settlement of every handler but never rejects (handler failures are caught
and logged). -/
def publishNew {σ : Type} (env : LoopEnv σ) (topic : String)
    (payload : EventPayload) (trace : TraceContext) (st : LoopState σ) :
    LoopState σ :=
  let p := mkEvent env topic payload trace st
  { p.2 with published := p.2.published ++ [p.1] }

/-- The argument record of AgentLoop.persistMessage. -/
structure PMsg where
  role : Role
  content : String
  toolCallId : Option String := none
deriving DecidableEq, Repr

/-- AgentLoop.persistMessage: no-op without a store or a hydrated session
id — and an empty-string session id is falsy in the source guard
(!this.sessionStore || !this.currentSessionId), so it also no-ops;
otherwise read the session (a missing session is a silent no-op) and
write the full history extended with the timestamped message.  Store
rejections are not caught here and propagate to the caller. -/
def persistMessage {σ : Type} (env : LoopEnv σ) (msg : PMsg)
    (st : LoopState σ) : LRes σ :=
  match env.store, st.currentSessionId with
  | some ops, some sid =>
    if sid = "" then .ok st
    else
    (match ops.get st.storeState sid with
     | .error e => .err e st
     | .ok none => .ok st
     | .ok (some session) =>
       let cm : ConversationMessage :=
         { role := msg.role, content := msg.content, timestamp := tsOf st.time
           toolCallId := msg.toolCallId }
       let st1 := { st with time := st.time + 1 }
       match ops.update st1.storeState sid (session.history ++ [cm]) with
       | .error e => .err e st1
       | .ok s' => .ok { st1 with storeState := s' })
  | _, _ => .ok st

/-- AgentLoop.executeTool: a missing tool or a throwing execute is absorbed
into a textual error result. -/
def executeTool {σ : Type} (env : LoopEnv σ) (name arguments : String) :
    String :=
  match env.tools name with
  | none => "Error: Tool \"" ++ name ++ "\" not found"
  | some ex =>
    match ex arguments with
    | .ok out => out
    | .error msg => "Error: " ++ msg

/-- The body of the for loop over result.toolCalls in AgentLoop.runLoop:
execute each call in the order the model returned them, append a tool-role
message with its output keyed by the call id, persist it, and continue. -/
def processToolCalls {σ : Type} (env : LoopEnv σ) :
    List ToolCall → LoopState σ → LRes σ
  | [], st => .ok st
  | call :: rest, st =>
    let output := executeTool env call.name call.arguments
    let st1 := { st with history := st.history ++
      [{ role := .tool, content := output, name := some call.name
         toolCallId := some call.id }] }
    match persistMessage env { role := .tool, content := output
                               toolCallId := some call.id } st1 with
    | .err e s => .err e s
    | .ok st2 => processToolCalls env rest st2

/-- The iteration cap of AgentLoop.runLoop. -/
def MAX_ITERATIONS : Nat := 10

/-- AgentLoop.runLoop, with the remaining iteration budget explicit.  Each
round calls generate on the full history; nonempty text is appended and
persisted as an assistant message; no tool calls means publish
agent.complete and stop; otherwise append the assistant placeholder
carrying the calls, run them, and continue.  An exhausted budget publishes
agent.error with message Max iterations reached. -/
def runLoopAux {σ : Type} (env : LoopEnv σ) (trace : TraceContext) :
    Nat → LoopState σ → LRes σ
  | 0, st =>
    .ok (publishNew env "agent.error" (.error "Max iterations reached") trace st)
  | Nat.succ fuel, st =>
    let st0 := { st with genCalls := st.genCalls + 1 }
    match env.gen st0.history with
    | .error e => .err e st0
    | .ok result =>
      let step1 : LRes σ :=
        if result.text = "" then .ok st0
        else
          persistMessage env { role := .assistant, content := result.text }
            { st0 with history := st0.history ++
              [{ role := .assistant, content := result.text }] }
      match step1 with
      | .err e s => .err e s
      | .ok st2 =>
        if result.toolCalls.isEmpty then
          .ok (publishNew env "agent.complete" (.complete result.text) trace st2)
        else
          let st3 := { st2 with history := st2.history ++
            [{ role := .assistant, content := "", toolCalls := result.toolCalls }] }
          match processToolCalls env result.toolCalls st3 with
          | .err e s => .err e s
          | .ok st4 => runLoopAux env trace fuel st4

/-- Convert a stored conversation message to a working-history message, as
hydrateFromSession maps over session.history. -/
def convToChat (m : ConversationMessage) : ChatMessage :=
  { role := m.role, content := m.content, toolCallId := m.toolCallId }

/-- AgentLoop.hydrateFromSession: skip if this session is already hydrated;
read the session (a rejection propagates); a missing session or an empty
history leaves the working history alone; otherwise replace it with the
system prompt (history[0], seeded in start) followed by the stored
messages. -/
def hydrateFromSession {σ : Type} (env : LoopEnv σ) (sessionId : String)
    (st : LoopState σ) : LRes σ :=
  if st.currentSessionId = some sessionId then .ok st
  else
    match env.store with
    | none => .ok st
    | some ops =>
      match ops.get st.storeState sessionId with
      | .error e => .err e st
      | .ok none => .ok st
      | .ok (some session) =>
        if session.history.isEmpty then .ok st
        else .ok { st with history :=
          (st.history.take 1) ++ session.history.map convToChat }

/-- AgentLoop.handleTurn: hydrate and remember the session when a store and
a session id are present — the guard (this.sessionStore && sessionId) is a
JavaScript truthiness test, so an absent and an empty-string session id
both skip hydration and leave currentSessionId unset — then append the
user message, persist it, and run the bounded cycle. -/
def handleTurn {σ : Type} (env : LoopEnv σ) (message : String)
    (trace : TraceContext) (sessionId : Option String) (st : LoopState σ) :
    LRes σ :=
  let step0 : LRes σ :=
    match env.store, sessionId with
    | some _, some sid =>
      if sid = "" then .ok st
      else
        (match hydrateFromSession env sid st with
         | .err e s => .err e s
         | .ok s => .ok { s with currentSessionId := some sid })
    | _, _ => .ok st
  match step0 with
  | .err e s => .err e s
  | .ok s1 =>
    let s2 := { s1 with history := s1.history ++
      [{ role := .user, content := message }] }
    match persistMessage env { role := .user, content := message } s2 with
    | .err e s => .err e s
    | .ok s3 => runLoopAux env trace MAX_ITERATIONS s3

/-- The subscription handler installed by AgentLoop.start for agent.turn
events: run handleTurn; any uncaught failure is converted into an
agent.error event on the same trace so callers are not left hanging. -/
def handleTurnEvent {σ : Type} (env : LoopEnv σ) (message : String)
    (trace : TraceContext) (sessionId : Option String) (st : LoopState σ) :
    LoopState σ :=
  match handleTurn env message trace sessionId st with
  | .ok s => s
  | .err e s => publishNew env "agent.error" (.error e) trace s

/-- The working history seeded by AgentLoop.start: the system prompt built
from the configuration and skill metadata. -/
def initialState {σ : Type} (systemPrompt : String) (s0 : σ) : LoopState σ :=
  { history := [{ role := .system, content := systemPrompt }], storeState := s0 }

/-! ## Theorems -/

/-! ### C5: filter matching semantics -/

/-- C5.  The claim (and the EventFilter documentation, which reads: match
specific topics, if empty matches all topics) says a filter with topics set
to the empty array matches events of all topics.  The implementation guard
filter.topics && !filter.topics.includes(event.topic) treats the empty
array as present — an empty JavaScript array is truthy — and its includes
test never succeeds, so such a filter matches no event at all.  Evaluating
the embedded matches at the failing input: the empty-topics filter rejects
an agent.complete event that the absent-topics filter accepts, and it
likewise rejects every event of the enumerated topics. -/
theorem C5_empty_topics_filter_matches_nothing :
    matchesFilter sampleCompleteEvent emptyTopicsFilter = false ∧
    matchesFilter sampleCompleteEvent { topics := none } = true ∧
    (["agent.turn", "agent.complete", "agent.error", "tool.request",
      "tool.result", "system.health"].all (fun t =>
        matchesFilter { sampleCompleteEvent with topic := t }
          emptyTopicsFilter = false)) = true := by
  decide

/-! ### C7: the request/reply primitive -/

/-- Once the request promise is settled and the subscription and timer are
released, no later callback firing changes anything. -/
lemma reqStep_settled_fix (flt : EventFilter) (tmsg : String)
    (x : Except String AegisEvent) (o : ReqOcc) :
    reqStep flt tmsg { settled := some x, subActive := false, timerActive := false } o
      = { settled := some x, subActive := false, timerActive := false } := by
  cases o <;> simp [reqStep, firstSettle]

/-- Folding any further occurrences over a settled state is the identity. -/
lemma foldl_settled_fix (flt : EventFilter) (tmsg : String)
    (x : Except String AegisEvent) (occs : List ReqOcc) :
    occs.foldl (reqStep flt tmsg)
      { settled := some x, subActive := false, timerActive := false }
      = { settled := some x, subActive := false, timerActive := false } := by
  induction occs with
  | nil => rfl
  | cons o rest ih => simpa [reqStep_settled_fix] using ih

/-- C7.  A request publishes its event and then settles according to the
first effective occurrence among the callback firings that follow: the
first reply passing the reply filter resolves the call with exactly that
event, the timer firing first rejects with the Timeout error, and a publish
rejection arriving first surfaces that failure.  In every settled case the
temporary subscription has been removed (subActive is false exactly when
some occurrence settled the call), so at most one matching event is
consumed and later matching events are not delivered to this call. -/
theorem C7_request_reply (flt : EventFilter) (eventId : String)
    (occs : List ReqOcc) :
    (runRequest flt (requestTimeoutMsg eventId) occs).settled
        = (occs.find? (effectiveOcc flt)).map
            (occOutcome (requestTimeoutMsg eventId)) ∧
    (runRequest flt (requestTimeoutMsg eventId) occs).subActive
        = (occs.find? (effectiveOcc flt)).isNone := by
  induction occs with
  | nil => exact ⟨rfl, rfl⟩
  | cons o rest ih =>
    cases o with
    | reply e =>
      by_cases hm : matchesFilter e flt
      · have hstep : reqStep flt (requestTimeoutMsg eventId) reqInit (.reply e)
            = { settled := some (.ok e), subActive := false, timerActive := false } := by
          simp [reqStep, reqInit, firstSettle, hm]
        have hfind : (List.find? (effectiveOcc flt) (.reply e :: rest))
            = some (.reply e) :=
          List.find?_cons_of_pos _ (by simpa [effectiveOcc] using hm)
        refine ⟨?_, ?_⟩ <;>
          simp [runRequest, List.foldl_cons, hstep, foldl_settled_fix, hfind,
            occOutcome]
      · have hstep : reqStep flt (requestTimeoutMsg eventId) reqInit (.reply e)
            = reqInit := by
          simp [reqStep, reqInit, hm]
        have hfind : (List.find? (effectiveOcc flt) (.reply e :: rest))
            = List.find? (effectiveOcc flt) rest :=
          List.find?_cons_of_neg _ (by simpa [effectiveOcc] using hm)
        simpa [runRequest, List.foldl_cons, hstep, hfind] using ih
    | timeoutFire =>
      have hstep : reqStep flt (requestTimeoutMsg eventId) reqInit .timeoutFire
          = { settled := some (.error (requestTimeoutMsg eventId))
              subActive := false, timerActive := false } := by
        simp [reqStep, reqInit, firstSettle]
      have hfind : (List.find? (effectiveOcc flt) (.timeoutFire :: rest))
          = some .timeoutFire :=
        List.find?_cons_of_pos _ (by simp [effectiveOcc])
      refine ⟨?_, ?_⟩ <;>
        simp [runRequest, List.foldl_cons, hstep, foldl_settled_fix, hfind,
          occOutcome]
    | publishFail err =>
      have hstep : reqStep flt (requestTimeoutMsg eventId) reqInit (.publishFail err)
          = { settled := some (.error err)
              subActive := false, timerActive := false } := by
        simp [reqStep, reqInit, firstSettle]
      have hfind : (List.find? (effectiveOcc flt) (.publishFail err :: rest))
          = some (.publishFail err) :=
        List.find?_cons_of_pos _ (by simp [effectiveOcc])
      refine ⟨?_, ?_⟩ <;>
        simp [runRequest, List.foldl_cons, hstep, foldl_settled_fix, hfind,
          occOutcome]

/-! ### Invariants of the loop's steps

These record which fields of the loop state each step leaves untouched,
on both the normal and the thrown path. -/

/-- Persisting a message never publishes, never calls generate, and never
touches the working history or the hydrated session id. -/
lemma persist_inv {σ : Type} (env : LoopEnv σ) (msg : PMsg) (st : LoopState σ) :
    (persistMessage env msg st).state.published = st.published ∧
    (persistMessage env msg st).state.genCalls = st.genCalls ∧
    (persistMessage env msg st).state.history = st.history ∧
    (persistMessage env msg st).state.currentSessionId = st.currentSessionId := by
  cases henv : env.store with
  | none => simp [persistMessage, henv, LRes.state]
  | some ops =>
    cases hsid : st.currentSessionId with
    | none => simp [persistMessage, henv, hsid, LRes.state]
    | some sid =>
      by_cases hsid0 : sid = ""
      · simp [persistMessage, henv, hsid, hsid0, LRes.state]
      cases hget : ops.get st.storeState sid with
      | error e => simp [persistMessage, henv, hsid, hsid0, hget, LRes.state]
      | ok o =>
        cases o with
        | none => simp [persistMessage, henv, hsid, hsid0, hget, LRes.state]
        | some session =>
          cases hupd : ops.update ({ st with time := st.time + 1} : LoopState σ).storeState sid
              (session.history ++ [{ role := msg.role, content := msg.content
                                     timestamp := tsOf st.time
                                     toolCallId := msg.toolCallId }]) with
          | error e =>
            simp [persistMessage, henv, hsid, hsid0, hget, hupd, LRes.state]
          | ok s' =>
            simp [persistMessage, henv, hsid, hsid0, hget, hupd, LRes.state]

/-- Executing the tool calls of one round never publishes, never calls
generate, and preserves the hydrated session id. -/
lemma ptc_inv {σ : Type} (env : LoopEnv σ) (calls : List ToolCall) :
    ∀ st : LoopState σ,
      (processToolCalls env calls st).state.published = st.published ∧
      (processToolCalls env calls st).state.genCalls = st.genCalls ∧
      (processToolCalls env calls st).state.currentSessionId = st.currentSessionId := by
  induction calls with
  | nil => intro st; simp [processToolCalls, LRes.state]
  | cons call rest ih =>
    intro st
    simp only [processToolCalls]
    set st1 : LoopState σ := { st with history := st.history ++
      [{ role := .tool, content := executeTool env call.name call.arguments
         name := some call.name, toolCallId := some call.id }] } with hst1
    have hp := persist_inv env
      ⟨.tool, executeTool env call.name call.arguments, some call.id⟩ st1
    cases hpm : persistMessage env
        ⟨.tool, executeTool env call.name call.arguments, some call.id⟩ st1 with
    | err e s =>
      rw [hpm] at hp
      simp only [LRes.state] at hp ⊢
      have h1 : st1.published = st.published := by simp [hst1]
      have h2 : st1.genCalls = st.genCalls := by simp [hst1]
      have h3 : st1.currentSessionId = st.currentSessionId := by simp [hst1]
      exact ⟨hp.1.trans h1, hp.2.1.trans h2, hp.2.2.2.trans h3⟩
    | ok st2 =>
      rw [hpm] at hp
      have hr := ih st2
      simp only [LRes.state] at hp
      have h1 : st1.published = st.published := by simp [hst1]
      have h2 : st1.genCalls = st.genCalls := by simp [hst1]
      have h3 : st1.currentSessionId = st.currentSessionId := by simp [hst1]
      exact ⟨hr.1.trans (hp.1.trans h1), hr.2.1.trans (hp.2.1.trans h2),
        hr.2.2.trans (hp.2.2.2.trans h3)⟩

/-- Hydration never publishes and never calls generate. -/
lemma hydrate_inv {σ : Type} (env : LoopEnv σ) (sessionId : String)
    (st : LoopState σ) :
    (hydrateFromSession env sessionId st).state.published = st.published ∧
    (hydrateFromSession env sessionId st).state.genCalls = st.genCalls := by
  unfold hydrateFromSession
  split
  · simp [LRes.state]
  · cases henv : env.store with
    | none => simp [LRes.state]
    | some ops =>
      cases hget : ops.get st.storeState sessionId with
      | error e => simp [hget, LRes.state]
      | ok o =>
        cases o with
        | none => simp [hget, LRes.state]
        | some session =>
          by_cases hh : session.history.isEmpty <;> simp [hget, hh, LRes.state]

/-- Publishing appends exactly the freshly created event and touches only
the uuid and clock counters besides. -/
lemma publishNew_published {σ : Type} (env : LoopEnv σ) (topic : String)
    (payload : EventPayload) (trace : TraceContext) (st : LoopState σ) :
    (publishNew env topic payload trace st).published
      = st.published ++ [(mkEvent env topic payload trace st).1] ∧
    (publishNew env topic payload trace st).genCalls = st.genCalls := by
  simp [publishNew, mkEvent]

/-- The event created by createEvent: requested topic and payload, child
trace context of the cause, source set to the configured agent, no target. -/
lemma mkEvent_fields {σ : Type} (env : LoopEnv σ) (topic : String)
    (payload : EventPayload) (trace : TraceContext) (st : LoopState σ) :
    (mkEvent env topic payload trace st).1.topic = topic ∧
    (mkEvent env topic payload trace st).1.payload = payload ∧
    (mkEvent env topic payload trace st).1.traceCtx.traceId = trace.traceId ∧
    (mkEvent env topic payload trace st).1.traceCtx.parentSpanId = some trace.spanId ∧
    (mkEvent env topic payload trace st).1.sourceAgentId = some env.config.id ∧
    (mkEvent env topic payload trace st).1.targetAgentId = none := by
  simp [mkEvent]

/-- Unpacking persist_inv along a normal return. -/
lemma persist_ok_state {σ : Type} (env : LoopEnv σ) (m : PMsg)
    (stx sy : LoopState σ) (h : persistMessage env m stx = .ok sy) :
    sy.published = stx.published ∧ sy.genCalls = stx.genCalls ∧
    sy.history = stx.history ∧ sy.currentSessionId = stx.currentSessionId := by
  have hinv := persist_inv env m stx
  rw [h] at hinv
  simpa [LRes.state] using hinv

/-- Unpacking persist_inv along a throw. -/
lemma persist_err_state {σ : Type} (env : LoopEnv σ) (m : PMsg)
    (stx sy : LoopState σ) (e : String) (h : persistMessage env m stx = .err e sy) :
    sy.published = stx.published ∧ sy.genCalls = stx.genCalls ∧
    sy.history = stx.history ∧ sy.currentSessionId = stx.currentSessionId := by
  have hinv := persist_inv env m stx
  rw [h] at hinv
  simpa [LRes.state] using hinv

/-- Unpacking ptc_inv along a normal return. -/
lemma ptc_ok_state {σ : Type} (env : LoopEnv σ) (calls : List ToolCall)
    (stx sy : LoopState σ) (h : processToolCalls env calls stx = .ok sy) :
    sy.published = stx.published ∧ sy.genCalls = stx.genCalls ∧
    sy.currentSessionId = stx.currentSessionId := by
  have hinv := ptc_inv env calls stx
  rw [h] at hinv
  simpa [LRes.state] using hinv

/-- Unpacking ptc_inv along a throw. -/
lemma ptc_err_state {σ : Type} (env : LoopEnv σ) (calls : List ToolCall)
    (stx sy : LoopState σ) (e : String) (h : processToolCalls env calls stx = .err e sy) :
    sy.published = stx.published ∧ sy.genCalls = stx.genCalls ∧
    sy.currentSessionId = stx.currentSessionId := by
  have hinv := ptc_inv env calls stx
  rw [h] at hinv
  simpa [LRes.state] using hinv

/-- Unpacking hydrate_inv along a normal return. -/
lemma hydrate_ok_state {σ : Type} (env : LoopEnv σ) (sid : String)
    (stx sy : LoopState σ) (h : hydrateFromSession env sid stx = .ok sy) :
    sy.published = stx.published ∧ sy.genCalls = stx.genCalls := by
  have hinv := hydrate_inv env sid stx
  rw [h] at hinv
  simpa [LRes.state] using hinv

/-- Unpacking hydrate_inv along a throw. -/
lemma hydrate_err_state {σ : Type} (env : LoopEnv σ) (sid : String)
    (stx sy : LoopState σ) (e : String) (h : hydrateFromSession env sid stx = .err e sy) :
    sy.published = stx.published ∧ sy.genCalls = stx.genCalls := by
  have hinv := hydrate_inv env sid stx
  rw [h] at hinv
  simpa [LRes.state] using hinv

/-- Every normal return of the bounded cycle has published exactly one new
event: a terminal one, on a child trace context of the turn, from the
configured agent, untargeted. -/
lemma runLoopAux_ok_pub {σ : Type} (env : LoopEnv σ) (trace : TraceContext)
    (fuel : Nat) (st s : LoopState σ)
    (h : runLoopAux env trace fuel st = .ok s) :
    ∃ e, s.published = st.published ++ [e] ∧
      (e.topic = "agent.complete" ∨ e.topic = "agent.error") ∧
      e.traceCtx.traceId = trace.traceId ∧
      e.traceCtx.parentSpanId = some trace.spanId ∧
      e.sourceAgentId = some env.config.id ∧
      e.targetAgentId = none := by
  induction fuel generalizing st s with
  | zero =>
    simp only [runLoopAux, LRes.ok.injEq] at h
    subst h
    exact ⟨(mkEvent env "agent.error" (.error "Max iterations reached") trace st).1,
      (publishNew_published env _ _ trace st).1, Or.inr (by simp [mkEvent]),
      by simp [mkEvent], by simp [mkEvent], by simp [mkEvent], by simp [mkEvent]⟩
  | succ fuel ih =>
    simp only [runLoopAux] at h
    split at h
    · cases h
    rename_i result hgen
    split at h
    · cases h
    rename_i st2 heq1
    have hst2pub : st2.published = st.published := by
      split at heq1
      · cases heq1; rfl
      · simpa using (persist_ok_state _ _ _ _ heq1).1
    split at h
    · simp only [LRes.ok.injEq] at h
      subst h
      exact ⟨(mkEvent env "agent.complete" (.complete result.text) trace st2).1,
        by rw [(publishNew_published env _ _ trace st2).1, hst2pub],
        Or.inl (by simp [mkEvent]), by simp [mkEvent], by simp [mkEvent],
        by simp [mkEvent], by simp [mkEvent]⟩
    · split at h
      · cases h
      rename_i st4 heq2
      have hst4pub : st4.published = st.published := by
        have := (ptc_ok_state _ _ _ _ heq2).1
        simpa [hst2pub] using this
      obtain ⟨e, he, hrest⟩ := ih st4 s h
      exact ⟨e, by rw [he, hst4pub], hrest⟩

/-- A throw escaping the bounded cycle has published nothing. -/
lemma runLoopAux_err_pub {σ : Type} (env : LoopEnv σ) (trace : TraceContext)
    (fuel : Nat) (st s : LoopState σ) (er : String)
    (h : runLoopAux env trace fuel st = .err er s) :
    s.published = st.published := by
  induction fuel generalizing st s with
  | zero => simp only [runLoopAux] at h; cases h
  | succ fuel ih =>
    simp only [runLoopAux] at h
    split at h
    · simp only [LRes.err.injEq] at h
      obtain ⟨rfl, rfl⟩ := h
      rfl
    rename_i result hgen
    split at h
    · rename_i e s1 heq1
      simp only [LRes.err.injEq] at h
      obtain ⟨rfl, rfl⟩ := h
      split at heq1
      · cases heq1
      · simpa using (persist_err_state _ _ _ _ _ heq1).1
    rename_i st2 heq1
    have hst2pub : st2.published = st.published := by
      split at heq1
      · cases heq1; rfl
      · simpa using (persist_ok_state _ _ _ _ heq1).1
    split at h
    · cases h
    · split at h
      · rename_i e s1 heq2
        simp only [LRes.err.injEq] at h
        obtain ⟨rfl, rfl⟩ := h
        have := (ptc_err_state _ _ _ _ _ heq2).1
        simpa [hst2pub] using this
      rename_i st4 heq2
      have hst4pub : st4.published = st.published := by
        have := (ptc_ok_state _ _ _ _ heq2).1
        simpa [hst2pub] using this
      exact (ih st4 s h).trans hst4pub

/-- The tail of handleTurn after the hydration step: appending and
persisting the user message, then the bounded cycle.  A normal return has
published exactly one terminal event on a child trace. -/
lemma handleTurn_tail_ok_pub {σ : Type} (env : LoopEnv σ) (message : String)
    (trace : TraceContext) (st s s1 : LoopState σ)
    (hs1 : s1.published = st.published)
    (h : (match persistMessage env { role := .user, content := message }
            { s1 with history := s1.history ++
              [{ role := .user, content := message }] } with
          | LRes.err e s => LRes.err e s
          | LRes.ok s3 => runLoopAux env trace MAX_ITERATIONS s3) = .ok s) :
    ∃ e, s.published = st.published ++ [e] ∧
      (e.topic = "agent.complete" ∨ e.topic = "agent.error") ∧
      e.traceCtx.traceId = trace.traceId ∧
      e.traceCtx.parentSpanId = some trace.spanId ∧
      e.sourceAgentId = some env.config.id ∧
      e.targetAgentId = none := by
  split at h
  · cases h
  rename_i s3 hpers
  have hs3 : s3.published = st.published := by
    have := (persist_ok_state _ _ _ _ hpers).1
    simpa [hs1] using this
  obtain ⟨e, he, hrest⟩ := runLoopAux_ok_pub env trace MAX_ITERATIONS s3 s h
  exact ⟨e, by rw [he, hs3], hrest⟩

/-- The tail of handleTurn, thrown path: nothing is published. -/
lemma handleTurn_tail_err_pub {σ : Type} (env : LoopEnv σ) (message : String)
    (trace : TraceContext) (st s s1 : LoopState σ) (er : String)
    (hs1 : s1.published = st.published)
    (h : (match persistMessage env { role := .user, content := message }
            { s1 with history := s1.history ++
              [{ role := .user, content := message }] } with
          | LRes.err e s => LRes.err e s
          | LRes.ok s3 => runLoopAux env trace MAX_ITERATIONS s3) = .err er s) :
    s.published = st.published := by
  split at h
  · rename_i e s2 hpers
    simp only [LRes.err.injEq] at h
    obtain ⟨rfl, rfl⟩ := h
    have := (persist_err_state _ _ _ _ _ hpers).1
    simpa [hs1] using this
  rename_i s3 hpers
  have hs3 : s3.published = st.published := by
    have := (persist_ok_state _ _ _ _ hpers).1
    simpa [hs1] using this
  exact (runLoopAux_err_pub env trace MAX_ITERATIONS s3 s er h).trans hs3

/-- A normal return of handleTurn publishes exactly one terminal event with
a child trace context of the turn. -/
lemma handleTurn_ok_pub {σ : Type} (env : LoopEnv σ) (message : String)
    (trace : TraceContext) (sessionId : Option String) (st s : LoopState σ)
    (h : handleTurn env message trace sessionId st = .ok s) :
    ∃ e, s.published = st.published ++ [e] ∧
      (e.topic = "agent.complete" ∨ e.topic = "agent.error") ∧
      e.traceCtx.traceId = trace.traceId ∧
      e.traceCtx.parentSpanId = some trace.spanId ∧
      e.sourceAgentId = some env.config.id ∧
      e.targetAgentId = none := by
  unfold handleTurn at h
  cases henv : env.store with
  | none =>
    rw [henv] at h
    simp only at h
    exact handleTurn_tail_ok_pub env message trace st s st rfl h
  | some ops =>
    cases sessionId with
    | none =>
      rw [henv] at h
      simp only at h
      exact handleTurn_tail_ok_pub env message trace st s st rfl h
    | some sid =>
      rw [henv] at h
      simp only at h
      by_cases hsid0 : sid = ""
      · rw [if_pos hsid0] at h
        simp only at h
        exact handleTurn_tail_ok_pub env message trace st s st rfl h
      rw [if_neg hsid0] at h
      cases hhyd : hydrateFromSession env sid st with
      | err e s0 =>
        rw [hhyd] at h
        simp only at h
        cases h
      | ok s0 =>
        rw [hhyd] at h
        simp only at h
        exact handleTurn_tail_ok_pub env message trace st s
          { s0 with currentSessionId := some sid }
          (by simpa using (hydrate_ok_state env sid st s0 hhyd).1) h

/-- A throw escaping handleTurn has published nothing. -/
lemma handleTurn_err_pub {σ : Type} (env : LoopEnv σ) (message : String)
    (trace : TraceContext) (sessionId : Option String) (st s : LoopState σ)
    (er : String) (h : handleTurn env message trace sessionId st = .err er s) :
    s.published = st.published := by
  unfold handleTurn at h
  cases henv : env.store with
  | none =>
    rw [henv] at h
    simp only at h
    exact handleTurn_tail_err_pub env message trace st s st er rfl h
  | some ops =>
    cases sessionId with
    | none =>
      rw [henv] at h
      simp only at h
      exact handleTurn_tail_err_pub env message trace st s st er rfl h
    | some sid =>
      rw [henv] at h
      simp only at h
      by_cases hsid0 : sid = ""
      · rw [if_pos hsid0] at h
        simp only at h
        exact handleTurn_tail_err_pub env message trace st s st er rfl h
      rw [if_neg hsid0] at h
      cases hhyd : hydrateFromSession env sid st with
      | err e s0 =>
        rw [hhyd] at h
        simp only [LRes.err.injEq] at h
        obtain ⟨rfl, rfl⟩ := h
        exact (hydrate_err_state env sid st s0 e hhyd).1
      | ok s0 =>
        rw [hhyd] at h
        simp only at h
        exact handleTurn_tail_err_pub env message trace st s
          { s0 with currentSessionId := some sid } er
          (by simpa using (hydrate_ok_state env sid st s0 hhyd).1) h

/-- A session store all of whose operations succeed (or no store at all). -/
def StoreTotal {σ : Type} : Option (StoreOps σ) → Prop
  | none => True
  | some ops =>
    (∀ s id, ∃ r, ops.get s id = .ok r) ∧
    (∀ s id hist, ∃ s2, ops.update s id hist = .ok s2)

/-- Against a total store, persistMessage never throws. -/
lemma persist_no_err {σ : Type} (env : LoopEnv σ)
    (hstore : StoreTotal env.store) (m : PMsg) (stx sy : LoopState σ)
    (e : String) (h : persistMessage env m stx = .err e sy) : False := by
  cases henv : env.store with
  | none =>
    cases hsid : stx.currentSessionId <;>
      simp only [persistMessage, henv, hsid] at h <;> cases h
  | some ops =>
    rw [henv] at hstore
    cases hsid : stx.currentSessionId with
    | none => simp only [persistMessage, henv, hsid] at h; cases h
    | some sid =>
      by_cases hsid0 : sid = ""
      · have hok : persistMessage env m stx = .ok stx := by
          simp [persistMessage, henv, hsid, hsid0]
        rw [hok] at h
        cases h
      obtain ⟨r, hget⟩ := hstore.1 stx.storeState sid
      cases r with
      | none =>
        simp only [persistMessage, henv, hsid, if_neg hsid0, hget] at h
        cases h
      | some session =>
        obtain ⟨s2, hupd⟩ := hstore.2 stx.storeState sid
          (session.history ++ [{ role := m.role, content := m.content
                                 timestamp := tsOf stx.time
                                 toolCallId := m.toolCallId }])
        simp only [persistMessage, henv, hsid, if_neg hsid0, hget, hupd] at h
        cases h

/-- Against a total store, the tool-call loop never throws. -/
lemma ptc_no_err {σ : Type} (env : LoopEnv σ)
    (hstore : StoreTotal env.store) (calls : List ToolCall) :
    ∀ (stx sy : LoopState σ) (e : String),
      processToolCalls env calls stx = .err e sy → False := by
  induction calls with
  | nil => intro stx sy e h; cases h
  | cons call rest ih =>
    intro stx sy e h
    simp only [processToolCalls] at h
    split at h
    · rename_i e1 s1 hpers
      exact persist_no_err env hstore _ _ _ _ hpers
    · exact ih _ _ _ h
  
/-- Against a total store, hydration never throws. -/
lemma hydrate_no_err {σ : Type} (env : LoopEnv σ)
    (hstore : StoreTotal env.store) (sid : String) (stx sy : LoopState σ)
    (e : String) (h : hydrateFromSession env sid stx = .err e sy) : False := by
  by_cases hcur : stx.currentSessionId = some sid
  · simp only [hydrateFromSession, if_pos hcur] at h
    cases h
  · cases henv : env.store with
    | none =>
      simp only [hydrateFromSession, if_neg hcur, henv] at h
      cases h
    | some ops =>
      rw [henv] at hstore
      obtain ⟨r, hget⟩ := hstore.1 stx.storeState sid
      cases r with
      | none =>
        simp only [hydrateFromSession, if_neg hcur, henv, hget] at h
        cases h
      | some session =>
        by_cases hh : session.history.isEmpty <;>
          simp only [hydrateFromSession, if_neg hcur, henv, hget, hh,
            if_true, if_false, Bool.false_eq_true] at h <;> cases h

/-- Against a total store and a total generation adapter, the bounded cycle
never throws. -/
lemma runLoopAux_no_err {σ : Type} (env : LoopEnv σ) (trace : TraceContext)
    (hstore : StoreTotal env.store)
    (hgen : ∀ hist, ∃ r, env.gen hist = .ok r) (fuel : Nat) :
    ∀ (stx sy : LoopState σ) (e : String),
      runLoopAux env trace fuel stx = .err e sy → False := by
  induction fuel with
  | zero => intro stx sy e h; cases h
  | succ fuel ih =>
    intro stx sy e h
    simp only [runLoopAux] at h
    split at h
    · rename_i e1 hgen1
      obtain ⟨r, hr⟩ := hgen stx.history
      rw [hgen1] at hr
      cases hr
    rename_i result hgen1
    split at h
    · rename_i e1 s1 heq1
      split at heq1
      · cases heq1
      · exact persist_no_err env hstore _ _ _ _ heq1
    rename_i st2 heq1
    split at h
    · cases h
    · split at h
      · rename_i e1 s1 heq2
        exact ptc_no_err env hstore _ _ _ _ heq2
      · exact ih _ _ _ h

/-- If every generation result carries a tool call, a normal return of the
bounded cycle performed one generate call per unit of budget and its single
published event is the max-iterations agent.error. -/
lemma runLoopAux_maxiter_ok {σ : Type} (env : LoopEnv σ) (trace : TraceContext)
    (hcond : ∀ hist r, env.gen hist = .ok r → r.toolCalls ≠ []) (fuel : Nat) :
    ∀ (stx sy : LoopState σ), runLoopAux env trace fuel stx = .ok sy →
      sy.genCalls = stx.genCalls + fuel ∧
      ∃ e, sy.published = stx.published ++ [e] ∧
        e.topic = "agent.error" ∧
        e.payload = .error "Max iterations reached" ∧
        e.traceCtx.traceId = trace.traceId ∧
        e.traceCtx.parentSpanId = some trace.spanId := by
  induction fuel with
  | zero =>
    intro stx sy h
    simp only [runLoopAux, LRes.ok.injEq] at h
    subst h
    refine ⟨by simp [publishNew, mkEvent], 
      ⟨(mkEvent env "agent.error" (.error "Max iterations reached") trace stx).1,
        (publishNew_published env _ _ trace stx).1, ?_, ?_, ?_, ?_⟩⟩ <;>
      simp [mkEvent]
  | succ fuel ih =>
    intro stx sy h
    simp only [runLoopAux] at h
    split at h
    · cases h
    rename_i result hgen1
    have htc : result.toolCalls ≠ [] := hcond _ _ hgen1
    split at h
    · cases h
    rename_i st2 heq1
    have hst2 : st2.published = stx.published ∧ st2.genCalls = stx.genCalls + 1 := by
      split at heq1
      · cases heq1; exact ⟨rfl, rfl⟩
      · have := persist_ok_state _ _ _ _ heq1
        exact ⟨by simpa using this.1, by simpa using this.2.1⟩
    split at h
    · rename_i hie
      exact absurd (List.isEmpty_iff.mp hie) htc
    · split at h
      · cases h
      rename_i st4 heq2
      have hst4 := ptc_ok_state _ _ _ _ heq2
      obtain ⟨hgc, e, hpub, he1, he2, he3, he4⟩ := ih st4 sy h
      refine ⟨?_, e, ?_, he1, he2, he3, he4⟩
      · rw [hgc]
        have : st4.genCalls = stx.genCalls + 1 := by
          rw [hst4.2.1]; simpa using hst2.2
        omega
      · rw [hpub, hst4.1]
        simp [hst2.1]

/-- Against a total store and a total generation adapter, handleTurn never
throws. -/
lemma handleTurn_no_err {σ : Type} (env : LoopEnv σ) (message : String)
    (trace : TraceContext) (sessionId : Option String) (st s : LoopState σ)
    (er : String) (hstore : StoreTotal env.store)
    (hgen : ∀ hist, ∃ r, env.gen hist = .ok r)
    (h : handleTurn env message trace sessionId st = .err er s) : False := by
  have tail : ∀ s1 : LoopState σ,
      (match persistMessage env { role := .user, content := message }
          { s1 with history := s1.history ++
            [{ role := .user, content := message }] } with
        | LRes.err e s => LRes.err e s
        | LRes.ok s3 => runLoopAux env trace MAX_ITERATIONS s3) = .err er s →
      False := by
    intro s1 h2
    split at h2
    · rename_i e s2 hpers
      exact persist_no_err env hstore _ _ _ _ hpers
    · exact runLoopAux_no_err env trace hstore hgen MAX_ITERATIONS _ _ _ h2
  unfold handleTurn at h
  cases henv : env.store with
  | none =>
    rw [henv] at h
    simp only at h
    exact tail st h
  | some ops =>
    cases sessionId with
    | none =>
      rw [henv] at h
      simp only at h
      exact tail st h
    | some sid =>
      rw [henv] at h
      simp only at h
      by_cases hsid0 : sid = ""
      · rw [if_pos hsid0] at h
        simp only at h
        exact tail st h
      rw [if_neg hsid0] at h
      cases hhyd : hydrateFromSession env sid st with
      | err e s0 =>
        exact hydrate_no_err env hstore sid st s0 e hhyd
      | ok s0 =>
        rw [hhyd] at h
        simp only at h
        exact tail { s0 with currentSessionId := some sid } h

/-- If every generation result carries a tool call, a normal return of
handleTurn performed exactly MAX_ITERATIONS generate calls and published
exactly the max-iterations agent.error for the turn's trace. -/
lemma handleTurn_maxiter_ok {σ : Type} (env : LoopEnv σ) (message : String)
    (trace : TraceContext) (sessionId : Option String) (st s : LoopState σ)
    (hcond : ∀ hist r, env.gen hist = .ok r → r.toolCalls ≠ [])
    (h : handleTurn env message trace sessionId st = .ok s) :
    s.genCalls = st.genCalls + MAX_ITERATIONS ∧
    ∃ e, s.published = st.published ++ [e] ∧
      e.topic = "agent.error" ∧
      e.payload = .error "Max iterations reached" ∧
      e.traceCtx.traceId = trace.traceId ∧
      e.traceCtx.parentSpanId = some trace.spanId := by
  have tail : ∀ s1 : LoopState σ, s1.published = st.published →
      s1.genCalls = st.genCalls →
      (match persistMessage env { role := .user, content := message }
          { s1 with history := s1.history ++
            [{ role := .user, content := message }] } with
        | LRes.err e s => LRes.err e s
        | LRes.ok s3 => runLoopAux env trace MAX_ITERATIONS s3) = .ok s →
      s.genCalls = st.genCalls + MAX_ITERATIONS ∧
      ∃ e, s.published = st.published ++ [e] ∧
        e.topic = "agent.error" ∧
        e.payload = .error "Max iterations reached" ∧
        e.traceCtx.traceId = trace.traceId ∧
        e.traceCtx.parentSpanId = some trace.spanId := by
    intro s1 hpub hgc h2
    split at h2
    · cases h2
    rename_i s3 hpers
    have hs3 := persist_ok_state _ _ _ _ hpers
    obtain ⟨hgc4, e, hpub4, he1, he2, he3, he4⟩ :=
      runLoopAux_maxiter_ok env trace hcond MAX_ITERATIONS s3 s h2
    refine ⟨?_, e, ?_, he1, he2, he3, he4⟩
    · rw [hgc4]
      have : s3.genCalls = st.genCalls := by
        have := hs3.2.1
        simpa [hgc] using this
      omega
    · rw [hpub4]
      have : s3.published = st.published := by
        have := hs3.1
        simpa [hpub] using this
      rw [this]
  unfold handleTurn at h
  cases henv : env.store with
  | none =>
    rw [henv] at h
    simp only at h
    exact tail st rfl rfl h
  | some ops =>
    cases sessionId with
    | none =>
      rw [henv] at h
      simp only at h
      exact tail st rfl rfl h
    | some sid =>
      rw [henv] at h
      simp only at h
      by_cases hsid0 : sid = ""
      · rw [if_pos hsid0] at h
        simp only at h
        exact tail st rfl rfl h
      rw [if_neg hsid0] at h
      cases hhyd : hydrateFromSession env sid st with
      | err e s0 =>
        rw [hhyd] at h
        simp only at h
        cases h
      | ok s0 =>
        rw [hhyd] at h
        simp only at h
        have hst0 := hydrate_ok_state env sid st s0 hhyd
        exact tail { s0 with currentSessionId := some sid }
          (by simpa using hst0.1) (by simpa using hst0.2) h

/-! ### C3: the bounded cycle under an always-tool-calling adapter -/

/-- C3.  Against any model adapter whose every generation result carries at
least one tool call (and a session store whose operations succeed, or no
store), one turn performs exactly MAX_ITERATIONS = 10 calls to generate —
in particular never more than 10 — after which the turn's single published
event is an agent.error whose payload error string is Max iterations
reached, on a child trace context of the turn; the cycle terminates
regardless of the adapter. -/
theorem C3_bounded_cycle {σ : Type} (env : LoopEnv σ) (message : String)
    (trace : TraceContext) (sessionId : Option String) (st : LoopState σ)
    (hgen_total : ∀ hist, ∃ r, env.gen hist = .ok r)
    (hgen_tools : ∀ hist r, env.gen hist = .ok r → r.toolCalls ≠ [])
    (hstore : StoreTotal env.store) :
    MAX_ITERATIONS = 10 ∧
    (handleTurnEvent env message trace sessionId st).genCalls
        = st.genCalls + 10 ∧
    ∃ e, (handleTurnEvent env message trace sessionId st).published
        = st.published ++ [e] ∧
      e.topic = "agent.error" ∧
      e.payload = .error "Max iterations reached" ∧
      e.traceCtx.traceId = trace.traceId ∧
      e.traceCtx.parentSpanId = some trace.spanId := by
  refine ⟨rfl, ?_⟩
  unfold handleTurnEvent
  cases hh : handleTurn env message trace sessionId st with
  | ok s =>
    have := handleTurn_maxiter_ok env message trace sessionId st s hgen_tools hh
    exact ⟨this.1, this.2⟩
  | err er s =>
    exact absurd hh (fun h => handleTurn_no_err env message trace sessionId
      st s er hstore hgen_total h)

/-- The generation result of the always-tool-calling mock adapter. -/
def alwaysToolResult : GenerationResult :=
  { text := "", toolCalls := [{ id := "call-1", name := "t", arguments := "a" }] }

/-- A mock adapter that always requests one tool call, in an environment
with no session store. -/
def alwaysToolEnv : LoopEnv Unit :=
  { gen := fun _ => .ok alwaysToolResult
    tools := fun _ => none
    config := { id := "agent-1", name := "A", systemPrompt := "sys" }
    store := none }

/-- Witness for C3: the always-tool-calling mock at a concrete turn. -/
theorem C3_bounded_cycle_witness :
    (∀ hist, ∃ r, alwaysToolEnv.gen hist = .ok r) ∧
    (∀ hist r, alwaysToolEnv.gen hist = .ok r → r.toolCalls ≠ []) ∧
    StoreTotal alwaysToolEnv.store ∧
    (MAX_ITERATIONS = 10 ∧
     (handleTurnEvent alwaysToolEnv "go" { traceId := "T", spanId := "S" }
        none (initialState "sys" ())).genCalls
          = (initialState "sys" ()).genCalls + 10 ∧
     ∃ e, (handleTurnEvent alwaysToolEnv "go" { traceId := "T", spanId := "S" }
        none (initialState "sys" ())).published
          = (initialState "sys" ()).published ++ [e] ∧
       e.topic = "agent.error" ∧
       e.payload = .error "Max iterations reached" ∧
       e.traceCtx.traceId = "T" ∧
       e.traceCtx.parentSpanId = some "S") :=
  ⟨fun _ => ⟨alwaysToolResult, rfl⟩,
   fun _ r h => by
     simp only [alwaysToolEnv, Except.ok.injEq] at h
     subst h
     decide,
   True.intro,
   C3_bounded_cycle alwaysToolEnv "go" { traceId := "T", spanId := "S" }
     none (initialState "sys" ()) (fun _ => ⟨alwaysToolResult, rfl⟩)
     (fun _ r h => by
       simp only [alwaysToolEnv, Except.ok.injEq] at h
       subst h
       decide)
     True.intro⟩

/-! ### C8: tool failures become model-visible tool messages -/

/-- An idealized in-memory session store over its recorded message list:
get returns the session with exactly the recorded history and update
records the full history it is given.  Both operations always succeed; it
is used to observe what the loop persists. -/
def memStore (base : Session) : StoreOps (List ConversationMessage) :=
  { get := fun s _ => .ok (some { base with history := s })
    update := fun _ _ hist => .ok hist }

/-- C8.  For a tool call whose tool is missing from the native registry or
whose execute throws, processing the call appends to the working history a
tool-role message keyed by the call id whose content is the descriptive
error string, persists the same message to the session store (the hydrated
session id is nonempty, as it always is when handleTurn set it — an empty
string is falsy and would skip persistence), publishes nothing, and
returns normally — the failure is absorbed, so the cycle continues and the
model sees the error text on the next generation. -/
theorem C8_tool_failure_absorbed (env : LoopEnv (List ConversationMessage))
    (st : LoopState (List ConversationMessage)) (call : ToolCall)
    (base : Session) (sid : String)
    (hstore : env.store = some (memStore base))
    (hsid : st.currentSessionId = some sid)
    (hsidne : sid ≠ "")
    (hfail : env.tools call.name = none ∨
      ∃ f m, env.tools call.name = some f ∧ f call.arguments = .error m) :
    ∃ errText : String,
      (errText = "Error: Tool \"" ++ call.name ++ "\" not found" ∨
        ∃ m, errText = "Error: " ++ m) ∧
      executeTool env call.name call.arguments = errText ∧
      processToolCalls env [call] st = .ok
        { st with
            history := st.history ++
              [{ role := .tool, content := errText, name := some call.name
                 toolCallId := some call.id }]
            storeState := st.storeState ++
              [{ role := .tool, content := errText, timestamp := tsOf st.time
                 toolCallId := some call.id }]
            time := st.time + 1 } := by
  have hrun : ∀ errText : String,
      executeTool env call.name call.arguments = errText →
      processToolCalls env [call] st = .ok
        { st with
            history := st.history ++
              [{ role := .tool, content := errText, name := some call.name
                 toolCallId := some call.id }]
            storeState := st.storeState ++
              [{ role := .tool, content := errText, timestamp := tsOf st.time
                 toolCallId := some call.id }]
            time := st.time + 1 } := by
    intro errText hexec
    simp only [processToolCalls, hexec, persistMessage, hstore, hsid,
      if_neg hsidne, memStore]
  cases hfail with
  | inl hn =>
    refine ⟨"Error: Tool \"" ++ call.name ++ "\" not found",
      Or.inl rfl, ?_, ?_⟩
    · simp [executeTool, hn]
    · exact hrun _ (by simp [executeTool, hn])
  | inr hr =>
    obtain ⟨f, m, hf, hm⟩ := hr
    refine ⟨"Error: " ++ m, Or.inr ⟨m, rfl⟩, ?_, ?_⟩
    · simp [executeTool, hf, hm]
    · exact hrun _ (by simp [executeTool, hf, hm])

/-- A concrete base session record for the observation store. -/
def c8Session : Session :=
  { id := "s1", agentId := "agent-1", createdAt := "t", lastActiveAt := "t"
    depth := 0, history := [] }

/-- An environment with an empty tool registry over the observation store. -/
def noToolsEnv : LoopEnv (List ConversationMessage) :=
  { gen := fun _ => .ok { text := "done" }
    tools := fun _ => none
    config := { id := "agent-1", name := "A", systemPrompt := "sys" }
    store := some (memStore c8Session) }

/-- A concrete loop state hydrated on session s1 over the observation
store. -/
def c8State : LoopState (List ConversationMessage) :=
  { history := [{ role := .system, content := "sys" }]
    currentSessionId := some "s1"
    storeState := [] }

/-- Witness for C8: a missing tool at a concrete call. -/
theorem C8_tool_failure_absorbed_witness :
    (noToolsEnv.store = some (memStore c8Session) ∧
     c8State.currentSessionId = some "s1" ∧
     ("s1" : String) ≠ "" ∧
     noToolsEnv.tools "fs.write" = none) ∧
    ∃ errText : String,
      (errText = "Error: Tool \"" ++ "fs.write" ++ "\" not found" ∨
        ∃ m, errText = "Error: " ++ m) ∧
      executeTool noToolsEnv "fs.write" "args" = errText ∧
      processToolCalls noToolsEnv
          [{ id := "call-7", name := "fs.write", arguments := "args" }]
          c8State = .ok
        { c8State with
            history := c8State.history ++
              [{ role := .tool, content := errText, name := some "fs.write"
                 toolCallId := some "call-7" }]
            storeState := c8State.storeState ++
              [{ role := .tool, content := errText
                 timestamp := tsOf c8State.time
                 toolCallId := some "call-7" }]
            time := c8State.time + 1 } :=
  ⟨⟨rfl, rfl, by decide, rfl⟩,
   C8_tool_failure_absorbed noToolsEnv c8State
     { id := "call-7", name := "fs.write", arguments := "args" }
     c8Session "s1" rfl rfl (by decide) (Or.inl rfl)⟩

/-! ### C4: what a session-store failure during persistence actually does

persistMessage awaits the store's get and update without a try/catch, and
neither handleTurn nor runLoop catches around it; a rejected store
operation therefore propagates to the subscription handler in start, which
converts it into the turn's terminal agent.error event.  Only the no-op
paths — no store configured, no hydrated session id, session not found —
skip persistence silently and let the cycle proceed. -/

/-- A session whose store rejects every write. -/
def c4Session : Session :=
  { id := "s1", agentId := "agent-1", createdAt := "t", lastActiveAt := "t"
    depth := 0, history := [{ role := .user, content := "old"
                              timestamp := "t0" }] }

/-- A store whose reads succeed and whose writes always reject. -/
def failStore : StoreOps Unit :=
  { get := fun _ _ => .ok (some c4Session)
    update := fun _ _ _ => .error "disk full" }

/-- An environment whose model would complete immediately, over the
failing store. -/
def c4Env : LoopEnv Unit :=
  { gen := fun _ => .ok { text := "Done" }
    tools := fun _ => none
    config := { id := "agent-1", name := "A", systemPrompt := "sys" }
    store := some failStore }

/-- C4 counterexample.  The claim says a session-store failure during
persistence does not abort the in-memory turn and is never converted into
an agent.error terminal event, the cycle still ending in agent.complete
when generation yields no tool calls.  At this concrete input — a store
whose update rejects with disk full, and a model that would immediately
complete — the turn's only published event is agent.error (disk full), the
generation adapter is never called (genCalls stays 0), and no
agent.complete is published. -/
theorem C4_counterexample :
    ((handleTurnEvent c4Env "hi" { traceId := "T", spanId := "S" } (some "s1")
        (initialState "sys" ())).published.map
          (fun e => (e.topic, e.payload)))
      = [("agent.error", EventPayload.error "disk full")] ∧
    (handleTurnEvent c4Env "hi" { traceId := "T", spanId := "S" } (some "s1")
        (initialState "sys" ())).genCalls = 0 := by
  constructor <;> rfl

/-- C4 amended.  If a nonempty session id is supplied (an empty string is
falsy and skips persistence entirely) and the store's reads succeed
but its writes reject, the write failure propagates out of the turn: the
handler publishes exactly one agent.error carrying the store's error, on a
child trace of the turn, and the generation adapter is never reached for
this turn.  (Persistence is skipped silently — and the cycle proceeds —
only when no store or session id is configured or the session is missing.) -/
theorem C4_amended {σ : Type} (env : LoopEnv σ) (ops : StoreOps σ)
    (sess : Session) (e0 : String) (message : String) (trace : TraceContext)
    (sid : String) (st : LoopState σ)
    (hstore : env.store = some ops)
    (hsidne : sid ≠ "")
    (hget : ∀ s i, ops.get s i = .ok (some sess))
    (hupd : ∀ s i hist, ops.update s i hist = .error e0) :
    ∃ ev, (handleTurnEvent env message trace (some sid) st).published
        = st.published ++ [ev] ∧
      ev.topic = "agent.error" ∧
      ev.payload = .error e0 ∧
      ev.traceCtx.traceId = trace.traceId ∧
      ev.traceCtx.parentSpanId = some trace.spanId ∧
      (handleTurnEvent env message trace (some sid) st).genCalls
        = st.genCalls := by
  cases hr : hydrateFromSession env sid st with
  | err e s0 =>
    exfalso
    rw [hydrateFromSession] at hr
    split at hr
    · cases hr
    · rw [hstore] at hr
      simp only [hget] at hr
      split at hr <;> cases hr
  | ok s0 =>
    have h0 := hydrate_ok_state env sid st s0 hr
    have hpers : ∀ (m : PMsg) (sx : LoopState σ),
        sx.currentSessionId = some sid →
        persistMessage env m sx = .err e0 { sx with time := sx.time + 1 } := by
      intro m sx hs
      simp only [persistMessage, hstore, hs, if_neg hsidne, hget, hupd]
    have hp2 := hpers { role := .user, content := message }
      { s0 with
          currentSessionId := some sid
          history := s0.history ++ [{ role := .user, content := message }] }
      rfl
    have hht : handleTurn env message trace (some sid) st =
        .err e0
          { s0 with
              currentSessionId := some sid
              history := s0.history ++ [{ role := .user, content := message }]
              time := s0.time + 1 } := by
      simp only [handleTurn, hstore, if_neg hsidne, hr, hp2]
    rw [handleTurnEvent, hht]
    refine ⟨(mkEvent env "agent.error" (.error e0) trace
        { s0 with
            currentSessionId := some sid
            history := s0.history ++ [{ role := .user, content := message }]
            time := s0.time + 1 }).1, ?_, by simp [mkEvent], by simp [mkEvent],
      by simp [mkEvent], by simp [mkEvent], ?_⟩
    · rw [(publishNew_published env _ _ trace _).1]
      simp [h0.1]
    · rw [(publishNew_published env _ _ trace _).2]
      simp [h0.2]

/-- Witness for the amended C4 at the concrete failing store. -/
theorem C4_amended_witness :
    (c4Env.store = some failStore ∧
     ("s1" : String) ≠ "" ∧
     (∀ s i, failStore.get s i = .ok (some c4Session)) ∧
     (∀ s i hist, failStore.update s i hist = .error "disk full")) ∧
    ∃ ev, (handleTurnEvent c4Env "hi" { traceId := "T", spanId := "S" }
        (some "s1") (initialState "sys" ())).published
          = (initialState "sys" ()).published ++ [ev] ∧
      ev.topic = "agent.error" ∧
      ev.payload = .error "disk full" ∧
      ev.traceCtx.traceId = "T" ∧
      ev.traceCtx.parentSpanId = some "S" ∧
      (handleTurnEvent c4Env "hi" { traceId := "T", spanId := "S" }
        (some "s1") (initialState "sys" ())).genCalls
          = (initialState "sys" ()).genCalls :=
  ⟨⟨rfl, by decide, fun _ _ => rfl, fun _ _ _ => rfl⟩,
   C4_amended c4Env failStore c4Session "disk full" "hi"
     { traceId := "T", spanId := "S" } "s1" (initialState "sys" ())
     rfl (by decide) (fun _ _ => rfl) (fun _ _ _ => rfl)⟩

/-! ### C1: exactly one terminal event per turn, on a descendant trace -/

/-- C1.  For every turn event delivered to a started loop — whatever the
model adapter, tool registry and session store do, including throwing —
handling the turn publishes exactly one new event, it is agent.complete or
agent.error, and its trace context descends from the turn's: same traceId,
parentSpanId equal to the turn's spanId.  This covers the no-tool-call
ending, the iteration cap, and a throwing generation adapter, since the
environment is universally quantified. -/
theorem C1_exactly_one_terminal_event {σ : Type} (env : LoopEnv σ)
    (message : String) (trace : TraceContext) (sessionId : Option String)
    (st : LoopState σ) :
    ∃ e, (handleTurnEvent env message trace sessionId st).published
        = st.published ++ [e] ∧
      (e.topic = "agent.complete" ∨ e.topic = "agent.error") ∧
      e.traceCtx.traceId = trace.traceId ∧
      e.traceCtx.parentSpanId = some trace.spanId := by
  unfold handleTurnEvent
  cases hh : handleTurn env message trace sessionId st with
  | ok s =>
    obtain ⟨e, he, h1, h2, h3, _⟩ :=
      handleTurn_ok_pub env message trace sessionId st s hh
    exact ⟨e, he, h1, h2, h3⟩
  | err er s =>
    have hs := handleTurn_err_pub env message trace sessionId st s er hh
    refine ⟨(mkEvent env "agent.error" (.error er) trace s).1, ?_,
      Or.inr (by simp [mkEvent]), by simp [mkEvent], by simp [mkEvent]⟩
    rw [(publishNew_published env _ _ trace s).1, hs]

/-! ### C9: terminal events carry the agent's source id and no target -/

/-- C9.  The single terminal event of a turn carries sourceAgentId equal to
the loop's configured agent id and no targetAgentId; consequently a reply
filter that requires any nonempty targetAgentId never matches it (an empty
string in the filter field is falsy in the source and imposes nothing, so
the claim is read for actual agent ids, which are nonempty). -/
theorem C9_terminal_event_addressing {σ : Type} (env : LoopEnv σ)
    (message : String) (trace : TraceContext) (sessionId : Option String)
    (st : LoopState σ) (f : EventFilter) (t : String)
    (hf : f.targetAgentId = some t) (ht : t ≠ "") :
    ∃ e, (handleTurnEvent env message trace sessionId st).published
        = st.published ++ [e] ∧
      e.sourceAgentId = some env.config.id ∧
      e.targetAgentId = none ∧
      matchesFilter e f = false := by
  have key : ∀ e : AegisEvent, e.targetAgentId = none →
      matchesFilter e f = false := by
    intro e hnone
    unfold matchesFilter
    rw [hf, hnone]
    simp [truthyStr, ht]
  unfold handleTurnEvent
  cases hh : handleTurn env message trace sessionId st with
  | ok s =>
    obtain ⟨e, he, _, _, _, h4, h5⟩ :=
      handleTurn_ok_pub env message trace sessionId st s hh
    exact ⟨e, he, h4, h5, key e h5⟩
  | err er s =>
    have hs := handleTurn_err_pub env message trace sessionId st s er hh
    refine ⟨(mkEvent env "agent.error" (.error er) trace s).1, ?_,
      by simp [mkEvent], by simp [mkEvent], key _ (by simp [mkEvent])⟩
    rw [(publishNew_published env _ _ trace s).1, hs]

/-- Witness for C9 at a concrete environment and filter. -/
theorem C9_terminal_event_addressing_witness :
    (({ targetAgentId := some "caller" } : EventFilter).targetAgentId
        = some "caller" ∧ "caller" ≠ "") ∧
    ∃ e, (handleTurnEvent
        ({ gen := fun _ => .ok { text := "hi" }
           tools := fun _ => none
           config := { id := "agent-1", name := "A", systemPrompt := "sys" }
           store := none } : LoopEnv Unit) "hello"
        { traceId := "T", spanId := "S" } none
        (initialState "sys" ())).published
          = (initialState "sys" ()).published ++ [e] ∧
      e.sourceAgentId = some "agent-1" ∧
      e.targetAgentId = none ∧
      matchesFilter e { targetAgentId := some "caller" } = false :=
  ⟨⟨rfl, by decide⟩,
    C9_terminal_event_addressing
      ({ gen := fun _ => .ok { text := "hi" }
         tools := fun _ => none
         config := { id := "agent-1", name := "A", systemPrompt := "sys" }
         store := none } : LoopEnv Unit) "hello"
      { traceId := "T", spanId := "S" } none (initialState "sys" ())
      { targetAgentId := some "caller" } "caller" rfl (by decide)⟩

/-! ### Store lemmas -/

/-- The event rows written for a batch of messages record exactly those
messages. -/
lemma mkRows_map_toMsg (sid : String) (ctr : Nat)
    (msgs : List ConversationMessage) :
    (mkRows sid ctr msgs).map EventRow.toMsg = msgs := by
  induction msgs generalizing ctr with
  | nil => rfl
  | cons m rest ih => simp [mkRows, EventRow.toMsg, ih]

/-- Rows written for one session all carry that session id. -/
lemma mkRows_filter_self (sid : String) (ctr : Nat)
    (msgs : List ConversationMessage) :
    (mkRows sid ctr msgs).filter (fun e => decide (e.sessionId = sid))
      = mkRows sid ctr msgs := by
  induction msgs generalizing ctr with
  | nil => rfl
  | cons m rest ih => simp [mkRows, List.filter, ih]

/-- The number of rows written equals the number of messages. -/
lemma mkRows_length (sid : String) (ctr : Nat)
    (msgs : List ConversationMessage) :
    (mkRows sid ctr msgs).length = msgs.length := by
  have := congrArg List.length (mkRows_map_toMsg sid ctr msgs)
  simpa using this

/-- Refreshing updated_at rewrites the found session row and nothing else
about the lookup. -/
lemma findSession_touch (sessions : List SessionRow) (id t : String) :
    (sessions.map (fun r =>
        if r.id = id then { r with updatedAt := t } else r)).find?
        (fun r => decide (r.id = id))
      = (sessions.find? (fun r => decide (r.id = id))).map
          (fun r => { r with updatedAt := t }) := by
  induction sessions with
  | nil => rfl
  | cons r rest ih =>
    by_cases h : r.id = id
    · simp [List.find?_cons_of_pos, h]
    · simp only [List.map_cons]
      rw [if_neg h, List.find?_cons_of_neg _ (by simpa using h),
        List.find?_cons_of_neg _ (by simpa using h), ih]

/-- The events of a session do not depend on the sessions table. -/
lemma eventsFor_sessions (db : DB) (sessions2 : List SessionRow)
    (id : String) :
    DB.eventsFor { db with sessions := sessions2 } id = db.eventsFor id := rfl

/-- The effect of one update call on an existing session: updated_at is
refreshed and exactly the messages past the already-stored count are
appended as fresh rows. -/
lemma update_append (db : DB) (id : String) (row : SessionRow)
    (hist : List ConversationMessage) (now : String)
    (hsess : db.findSession id = some row) :
    db.update id { history := some hist } now = .ok
      { sessions := db.sessions.map (fun r =>
          if r.id = id then { r with updatedAt := now } else r)
        events := db.events ++
          mkRows id db.uuidCtr (hist.drop (db.eventsFor id).length)
        uuidCtr := db.uuidCtr
          + (hist.drop (db.eventsFor id).length).length } := by
  unfold DB.update
  simp only
  by_cases hlen : hist.length > 0
  · rw [if_pos hlen]
    have hfind : DB.findSession
        { db with sessions := db.sessions.map (fun r =>
            if r.id = id then { r with updatedAt := now } else r) } id
        = some { row with updatedAt := now } := by
      unfold DB.findSession at hsess ⊢
      simp only at hsess ⊢
      rw [findSession_touch, hsess]
      rfl
    rw [hfind]
    simp [DB.eventsFor]
  · rw [if_neg hlen]
    have hnil : hist = [] := by
      cases hist with
      | nil => rfl
      | cons a l => exact absurd (by simp) hlen
    subst hnil
    simp [mkRows]

/-- Inserting a row into the scan is a permutation of putting it in front. -/
lemma insertTs_perm (x : EventRow) (l : List EventRow) :
    List.Perm (insertTs x l) (x :: l) := by
  induction l with
  | nil => exact List.Perm.refl _
  | cons f rest ih =>
    by_cases h : strLtB f.timestamp x.timestamp
    · rw [insertTs, if_pos h]
      exact ((ih.cons f).trans (List.Perm.swap x f rest))
    · rw [insertTs, if_neg h]

/-- The timestamp scan is a permutation of the rowid order. -/
lemma sortByTs_perm (l : List EventRow) : List.Perm (sortByTs l) l := by
  induction l with
  | nil => exact List.Perm.refl _
  | cons x rest ih =>
    exact (insertTs_perm x (sortByTs rest)).trans (ih.cons x)

/-- Rows already in nondecreasing timestamp order come back unchanged from
the scan. -/
lemma sortByTs_of_sorted (l : List EventRow) (h : tsSortedRows l) :
    sortByTs l = l := by
  induction l with
  | nil => rfl
  | cons x rest ih =>
    cases rest with
    | nil => rfl
    | cons y t =>
      rw [tsSortedRows, List.chain'_cons] at h
      have hxs : sortByTs (y :: t) = y :: t := ih h.2
      show insertTs x (sortByTs (y :: t)) = x :: y :: t
      rw [hxs, insertTs, if_neg (by simp [h.1])]

/-- What get returns for an existing session. -/
lemma get_eq (db : DB) (id : String) (row : SessionRow)
    (hsess : db.findSession id = some row) :
    db.get id = some
      { id := row.id, agentId := row.agentId, createdAt := row.createdAt
        lastActiveAt := row.updatedAt, parentSessionId := row.parentSessionId
        depth := row.depth
        history := (sortByTs (db.eventsFor id)).map EventRow.toMsg } := by
  unfold DB.get
  rw [hsess]

/-! ### C6: update inserts exactly the unstored suffix -/

/-- C6.  When the history passed to update extends the stored messages, the
store appends exactly the rows for the extension — already-stored rows are
untouched and nothing of the extension is dropped — and the session's
updated_at (its last-active timestamp, returned by get as lastActiveAt) is
refreshed to the time of the call. -/
theorem C6_update_appends_suffix (db : DB) (id : String) (row : SessionRow)
    (extra hist : List ConversationMessage) (now : String)
    (hsess : db.findSession id = some row)
    (hext : hist = (db.eventsFor id).map EventRow.toMsg ++ extra) :
    ∃ db', db.update id { history := some hist } now = .ok db' ∧
      db'.eventsFor id = db.eventsFor id ++ mkRows id db.uuidCtr extra ∧
      (db'.eventsFor id).map EventRow.toMsg
        = (db.eventsFor id).map EventRow.toMsg ++ extra ∧
      db'.events.length = db.events.length + extra.length ∧
      db'.findSession id = some { row with updatedAt := now } := by
  have hdrop : hist.drop (db.eventsFor id).length = extra := by
    rw [hext]
    have : (db.eventsFor id).length
        = ((db.eventsFor id).map EventRow.toMsg).length := by
      rw [List.length_map]
    rw [this, List.drop_left]
  refine ⟨_, update_append db id row hist now hsess, ?_, ?_, ?_, ?_⟩
  · show (db.events ++ mkRows id db.uuidCtr
        (hist.drop (db.eventsFor id).length)).filter
          (fun e => decide (e.sessionId = id))
      = db.eventsFor id ++ mkRows id db.uuidCtr extra
    rw [hdrop, List.filter_append, mkRows_filter_self]
    rfl
  · show ((db.events ++ mkRows id db.uuidCtr
        (hist.drop (db.eventsFor id).length)).filter
          (fun e => decide (e.sessionId = id))).map EventRow.toMsg
      = (db.eventsFor id).map EventRow.toMsg ++ extra
    rw [hdrop, List.filter_append, mkRows_filter_self, List.map_append,
      mkRows_map_toMsg]
    rfl
  · show (db.events ++ mkRows id db.uuidCtr
        (hist.drop (db.eventsFor id).length)).length
      = db.events.length + extra.length
    rw [hdrop, List.length_append, mkRows_length]
  · show DB.findSession
        { sessions := db.sessions.map (fun r =>
            if r.id = id then { r with updatedAt := now } else r)
          events := db.events ++ mkRows id db.uuidCtr
            (hist.drop (db.eventsFor id).length)
          uuidCtr := db.uuidCtr
            + (hist.drop (db.eventsFor id).length).length } id
      = some { row with updatedAt := now }
    unfold DB.findSession at hsess ⊢
    simp only at hsess ⊢
    rw [findSession_touch, hsess]
    rfl

/-- The session row of the C6 witness database. -/
def c6row : SessionRow :=
  { id := "s1", agentId := "ag", status := "active", depth := 0
    parentSessionId := none, createdAt := "t0", updatedAt := "t0" }

/-- A one-session database with one stored message. -/
def c6db : DB :=
  { sessions := [c6row]
    events := [{ id := 0, sessionId := "s1", role := .user, content := "A"
                 timestamp := "ta", toolCallId := none }]
    uuidCtr := 1 }

/-- The extension message of the C6 witness. -/
def c6extra : ConversationMessage :=
  { role := .assistant, content := "B", timestamp := "tb" }

/-- Witness for C6 at a concrete database and extension. -/
theorem C6_update_appends_suffix_witness :
    (c6db.findSession "s1" = some c6row ∧
     ((c6db.eventsFor "s1").map EventRow.toMsg ++ [c6extra]
        : List ConversationMessage)
       = (c6db.eventsFor "s1").map EventRow.toMsg ++ [c6extra]) ∧
    ∃ db', c6db.update "s1"
        { history := some ((c6db.eventsFor "s1").map EventRow.toMsg
            ++ [c6extra]) } "t1" = .ok db' ∧
      db'.eventsFor "s1" = c6db.eventsFor "s1"
        ++ mkRows "s1" c6db.uuidCtr [c6extra] ∧
      (db'.eventsFor "s1").map EventRow.toMsg
        = (c6db.eventsFor "s1").map EventRow.toMsg ++ [c6extra] ∧
      db'.events.length = c6db.events.length + 1 ∧
      db'.findSession "s1" = some { c6row with updatedAt := "t1" } :=
  ⟨⟨by decide, rfl⟩,
   C6_update_appends_suffix c6db "s1" c6row
     [c6extra] _ "t1" (by decide) rfl⟩

/-! ### C10: update is monotone, never edits, never shrinks -/

/-- The history of an optional session (empty when absent). -/
def sessionHistory : Option Session → List ConversationMessage
  | none => []
  | some s => s.history

/-- C10.  Every successful update leaves the existing event rows as an
unchanged initial segment (it only ever appends); an update whose history
argument is no longer than what is already stored inserts nothing; and
every message returned by get before the update is still returned by get
after it. -/
theorem C10_update_monotone (db : DB) (id : String)
    (hist : List ConversationMessage) (now : String) (db' : DB)
    (h : db.update id { history := some hist } now = .ok db') :
    (∃ tail, db'.events = db.events ++ tail) ∧
    (hist.length ≤ (db.eventsFor id).length → db'.events = db.events) ∧
    (∀ m, m ∈ sessionHistory (db.get id) →
      m ∈ sessionHistory (db'.get id)) := by
  cases hfs : db.findSession id with
  | some row =>
    rw [update_append db id row hist now hfs, Except.ok.injEq] at h
    subst h
    refine ⟨⟨mkRows id db.uuidCtr (hist.drop (db.eventsFor id).length), rfl⟩,
      ?_, ?_⟩
    · intro hle
      show db.events ++ mkRows id db.uuidCtr
          (hist.drop (db.eventsFor id).length) = db.events
      rw [List.drop_eq_nil_of_le hle, mkRows]
      simp
    · intro m hm
      have hfs2 : DB.findSession
          { sessions := db.sessions.map (fun r =>
              if r.id = id then { r with updatedAt := now } else r)
            events := db.events ++ mkRows id db.uuidCtr
              (hist.drop (db.eventsFor id).length)
            uuidCtr := db.uuidCtr
              + (hist.drop (db.eventsFor id).length).length } id
          = some { row with updatedAt := now } := by
        unfold DB.findSession at hfs ⊢
        simp only at hfs ⊢
        rw [findSession_touch, hfs]
        rfl
      rw [get_eq db id row hfs, sessionHistory] at hm
      rw [get_eq _ id { row with updatedAt := now } hfs2, sessionHistory]
      have hperm1 := (sortByTs_perm (db.eventsFor id)).map EventRow.toMsg
      have hin : m ∈ (db.eventsFor id).map EventRow.toMsg :=
        hperm1.mem_iff.mp hm
      have hsub : (DB.eventsFor
          { sessions := db.sessions.map (fun r =>
              if r.id = id then { r with updatedAt := now } else r)
            events := db.events ++ mkRows id db.uuidCtr
              (hist.drop (db.eventsFor id).length)
            uuidCtr := db.uuidCtr
              + (hist.drop (db.eventsFor id).length).length } id)
          = db.eventsFor id ++ mkRows id db.uuidCtr
              (hist.drop (db.eventsFor id).length) := by
        show (db.events ++ mkRows id db.uuidCtr
            (hist.drop (db.eventsFor id).length)).filter
              (fun e => decide (e.sessionId = id))
          = db.eventsFor id ++ mkRows id db.uuidCtr
              (hist.drop (db.eventsFor id).length)
        rw [List.filter_append, mkRows_filter_self]
        rfl
      rw [hsub]
      have hperm2 := (sortByTs_perm (db.eventsFor id ++ mkRows id db.uuidCtr
        (hist.drop (db.eventsFor id).length))).map EventRow.toMsg
      refine hperm2.mem_iff.mpr ?_
      rw [List.map_append]
      exact List.mem_append_left _ hin
  | none =>
    have hvac : sessionHistory (db.get id) = [] := by
      unfold DB.get
      rw [hfs]
      rfl
    have hfs1 : DB.findSession
        { db with sessions := db.sessions.map (fun r =>
            if r.id = id then { r with updatedAt := now } else r) } id
        = none := by
      unfold DB.findSession at hfs ⊢
      simp only at hfs ⊢
      rw [findSession_touch, hfs]
      rfl
    unfold DB.update at h
    simp only at h
    split at h
    · rename_i hlen
      split at h
      · cases h
      · rename_i hg
        rw [Except.ok.injEq] at h
        subst h
        simp only [eventsFor_sessions] at hg ⊢
        have hnm : hist.drop (db.eventsFor id).length = [] := by
          by_contra hne
          apply hg
          rw [hfs1]
          have hpos : 0 < (hist.drop (db.eventsFor id).length).length :=
            List.length_pos.mpr hne
          simpa using hpos
        refine ⟨⟨[], ?_⟩, ?_, ?_⟩
        · show db.events ++ mkRows id _ (hist.drop (db.eventsFor id).length)
            = db.events ++ []
          rw [hnm, mkRows]
        · intro hle
          show db.events ++ mkRows id _ (hist.drop (db.eventsFor id).length)
            = db.events
          rw [hnm, mkRows]
          simp
        · intro m hm
          rw [hvac] at hm
          cases hm
    · rw [Except.ok.injEq] at h
      subst h
      refine ⟨⟨[], by simp⟩, fun hle => by simp, ?_⟩
      intro m hm
      rw [hvac] at hm
      cases hm

/-- The (shorter) history argument of the C10 witness. -/
def c10msg : ConversationMessage :=
  { role := .user, content := "X", timestamp := "tz" }

/-- What update returns at the C10 witness input: updated_at refreshed,
nothing inserted. -/
def c10db : DB :=
  { sessions := [{ c6row with updatedAt := "t2" }]
    events := c6db.events
    uuidCtr := 1 }

/-- Witness for C10: a history of the same length as the stored count
inserts nothing and loses nothing. -/
theorem C10_update_monotone_witness :
    (c6db.update "s1" { history := some [c10msg] } "t2" = .ok c10db) ∧
    ((∃ tail, c10db.events = c6db.events ++ tail) ∧
     ([c10msg].length ≤ (c6db.eventsFor "s1").length →
        c10db.events = c6db.events) ∧
     (∀ m, m ∈ sessionHistory (c6db.get "s1") →
        m ∈ sessionHistory (c10db.get "s1"))) :=
  ⟨rfl, C10_update_monotone c6db "s1" [c10msg] "t2" c10db rfl⟩

/-! ### C2: recovery fidelity across updates and re-opens -/

/-- First counterexample message: later call order, larger timestamp. -/
def c2m1 : ConversationMessage :=
  { role := .user, content := "A", timestamp := "b" }

/-- Second counterexample message: appended after c2m1 but carrying a
smaller timestamp. -/
def c2m2 : ConversationMessage :=
  { role := .assistant, content := "B", timestamp := "a" }

/-- A fresh one-session database for the C2 runs. -/
def c2db0 : DB := { sessions := [c6row], events := [], uuidCtr := 0 }

/-- The history read back after the counterexample run. -/
def c2final : Option (List ConversationMessage) :=
  match runCalls "s1" c2db0
      [.update [c2m1] "t1", .reopen, .update [c2m1, c2m2] "t2"] with
  | .ok db2 => (db2.get "s1").map Session.history
  | .error _ => none

/-- C2 counterexample.  Two updates (the second passing the full current
history, with a store re-open between them) append c2m1 then c2m2, but get
replays the ledger in ascending timestamp order, so the returned history is
the two messages swapped — not the concatenation of the appended messages
in call order that the claim requires. -/
theorem C2_counterexample :
    c2final = some [c2m2, c2m1] ∧ [c2m2, c2m1] ≠ [c2m1, c2m2] := by
  decide

/-- The histories a well-behaved client passes have as many entries as
batches. -/
lemma fullHistories_length (newss : List (List ConversationMessage)) :
    (fullHistories newss).length = newss.length := by
  simp [fullHistories]

/-- The k-th history a well-behaved client passes is the flattening of the
first k+1 batches. -/
lemma fullHistories_getElem (newss : List (List ConversationMessage))
    (j : Nat) (hj : j < (fullHistories newss).length) :
    (fullHistories newss)[j] = (newss.take (j + 1)).flatten := by
  simp [fullHistories]

/-- Flattening one more batch appends that batch. -/
lemma flatten_take_succ (newss : List (List ConversationMessage)) (j : Nat)
    (hj : j < newss.length) :
    (newss.take (j + 1)).flatten = (newss.take j).flatten ++ newss[j] := by
  rw [List.take_succ, List.getElem?_eq_getElem hj]
  rw [List.flatten_append]
  simp

/-- A row list that records a nondecreasing message sequence is itself in
nondecreasing timestamp order. -/
lemma tsSortedRows_of_map (l : List EventRow)
    (h : tsSortedMsgs (l.map EventRow.toMsg)) : tsSortedRows l := by
  rw [tsSortedMsgs, List.chain'_map] at h
  exact h

/-- Lookup in the touched sessions table of an update result. -/
lemma findSession_touched (db : DB) (id : String) (row : SessionRow)
    (now : String) (events2 : List EventRow) (ctr : Nat)
    (hsess : db.findSession id = some row) :
    DB.findSession
      { sessions := db.sessions.map (fun r =>
          if r.id = id then { r with updatedAt := now } else r)
        events := events2, uuidCtr := ctr } id
      = some { row with updatedAt := now } := by
  unfold DB.findSession at hsess ⊢
  simp only at hsess ⊢
  rw [findSession_touch, hsess]
  rfl

/-- The events of a session after appending that session's fresh rows. -/
lemma eventsFor_append_rows (db : DB) (id : String)
    (sessions2 : List SessionRow) (ctr ctr2 : Nat)
    (msgs : List ConversationMessage) :
    DB.eventsFor { sessions := sessions2
                   events := db.events ++ mkRows id ctr msgs
                   uuidCtr := ctr2 } id
      = db.eventsFor id ++ mkRows id ctr msgs := by
  show (db.events ++ mkRows id ctr msgs).filter
      (fun e => decide (e.sessionId = id))
    = db.eventsFor id ++ mkRows id ctr msgs
  rw [List.filter_append, mkRows_filter_self]
  rfl

/-- Folding a well-behaved client run: if the session exists, its stored
messages so far are the first j batches, and the remaining update calls
pass the full histories from the j-th on, then the run succeeds and the
final ledger records exactly the flattening of all batches. -/
lemma runCalls_fullHistories (id : String)
    (newss : List (List ConversationMessage)) :
    ∀ (calls : List StoreCall) (db : DB) (j : Nat) (row : SessionRow),
      db.findSession id = some row →
      (db.eventsFor id).map EventRow.toMsg = (newss.take j).flatten →
      calls.filterMap StoreCall.updateHist = (fullHistories newss).drop j →
      ∃ db', runCalls id db calls = .ok db' ∧
        ∃ row', db'.findSession id = some row' ∧
          (db'.eventsFor id).map EventRow.toMsg = newss.flatten := by
  intro calls
  induction calls with
  | nil =>
    intro db j row hs hmsgs hcalls
    refine ⟨db, rfl, row, hs, ?_⟩
    have hj : (fullHistories newss).length ≤ j :=
      List.drop_eq_nil_iff.mp hcalls.symm
    rw [fullHistories_length] at hj
    rw [hmsgs, List.take_of_length_le hj]
  | cons c rest ih =>
    intro db j row hs hmsgs hcalls
    cases c with
    | reopen =>
      simp only [List.filterMap_cons, StoreCall.updateHist] at hcalls
      simp only [runCalls, DB.reopen]
      exact ih db j row hs hmsgs hcalls
    | update hist nw =>
      simp only [List.filterMap_cons, StoreCall.updateHist] at hcalls
      have hlenL : j < (fullHistories newss).length := by
        by_contra hge
        push_neg at hge
        rw [List.drop_eq_nil_of_le hge] at hcalls
        cases hcalls
      have hjn : j < newss.length := by
        rw [fullHistories_length] at hlenL
        exact hlenL
      have hhead : hist = (newss.take (j + 1)).flatten := by
        have h0 : ((fullHistories newss).drop j)[0]? = some hist := by
          rw [← hcalls]
          simp
        rw [List.getElem?_drop, Nat.add_zero,
          List.getElem?_eq_getElem hlenL] at h0
        rw [← Option.some_inj.mp h0, fullHistories_getElem]
      have hrest : rest.filterMap StoreCall.updateHist
          = (fullHistories newss).drop (j + 1) := by
        have hdd : (fullHistories newss).drop (j + 1)
            = ((fullHistories newss).drop j).drop 1 :=
          (List.drop_drop 1 j (fullHistories newss)).symm
        rw [hdd, ← hcalls]
        rfl
      have hcount : (db.eventsFor id).length
          = ((newss.take j).flatten).length := by
        rw [← hmsgs, List.length_map]
      have hdrop : hist.drop (db.eventsFor id).length = newss[j] := by
        rw [hcount, hhead, flatten_take_succ newss j hjn]
        exact List.drop_left _ _
      have hupd := update_append db id row hist nw hs
      simp only [runCalls, hupd]
      have hs2 := findSession_touched db id row nw
        (db.events ++ mkRows id db.uuidCtr
          (hist.drop (db.eventsFor id).length))
        (db.uuidCtr + (hist.drop (db.eventsFor id).length).length) hs
      have hmsgs2 : (DB.eventsFor
          { sessions := db.sessions.map (fun r =>
              if r.id = id then { r with updatedAt := nw } else r)
            events := db.events ++ mkRows id db.uuidCtr
              (hist.drop (db.eventsFor id).length)
            uuidCtr := db.uuidCtr
              + (hist.drop (db.eventsFor id).length).length } id).map
            EventRow.toMsg
          = (newss.take (j + 1)).flatten := by
        rw [eventsFor_append_rows, List.map_append, mkRows_map_toMsg, hmsgs,
          hdrop, flatten_take_succ newss j hjn]
      exact ih _ (j + 1) _ hs2 hmsgs2 hrest

/-- C2 amended.  For every run in which each update passes the full current
history (the concatenation of the batches appended so far), interleaved
with any number of store closes and re-opens, and in which the appended
messages carry nondecreasing timestamps, get(id).history after the last
call is exactly the concatenation of all appended messages in call order,
each with role, content, timestamp and toolCallId as accepted.  Without the
timestamp proviso the order can differ, since get replays the ledger in
ascending timestamp order (see the counterexample). -/
theorem C2_recovery_fidelity (db : DB) (id : String) (row : SessionRow)
    (newss : List (List ConversationMessage)) (calls : List StoreCall)
    (hsess : db.findSession id = some row)
    (hempty : db.eventsFor id = [])
    (hcalls : calls.filterMap StoreCall.updateHist = fullHistories newss)
    (hts : tsSortedMsgs newss.flatten) :
    ∃ db', runCalls id db calls = .ok db' ∧
      ∃ s, db'.get id = some s ∧ s.history = newss.flatten := by
  obtain ⟨db', hrun, row', hs', hmsgs'⟩ :=
    runCalls_fullHistories id newss calls db 0 row hsess
      (by rw [hempty]; rfl) (by simpa using hcalls)
  refine ⟨db', hrun, ?_⟩
  have hsorted : sortByTs (db'.eventsFor id) = db'.eventsFor id :=
    sortByTs_of_sorted _ (tsSortedRows_of_map _ (by rw [hmsgs']; exact hts))
  refine ⟨_, get_eq db' id row' hs', ?_⟩
  show (sortByTs (db'.eventsFor id)).map EventRow.toMsg = newss.flatten
  rw [hsorted, hmsgs']

/-- The two single-message batches of the C2 witness, timestamps
nondecreasing. -/
def c2wm1 : ConversationMessage :=
  { role := .user, content := "A", timestamp := "ta" }

/-- Second witness batch message. -/
def c2wm2 : ConversationMessage :=
  { role := .assistant, content := "B", timestamp := "tb" }

/-- The witness batches carry nondecreasing timestamps. -/
lemma c2w_sorted :
    tsSortedMsgs ([[c2wm1], [c2wm2]] : List (List ConversationMessage)).flatten := by
  unfold tsSortedMsgs
  rw [show ([[c2wm1], [c2wm2]] : List (List ConversationMessage)).flatten
      = [c2wm1, c2wm2] from rfl]
  rw [List.chain'_cons]
  exact ⟨by decide, List.chain'_singleton _⟩

/-- Witness for the amended C2: two updates with a re-open between them,
full current history passed each time, nondecreasing timestamps. -/
theorem C2_recovery_fidelity_witness :
    (c2db0.findSession "s1" = some c6row ∧
     c2db0.eventsFor "s1" = [] ∧
     ([StoreCall.update [c2wm1] "t1", StoreCall.reopen,
       StoreCall.update [c2wm1, c2wm2] "t2"].filterMap StoreCall.updateHist
        = fullHistories [[c2wm1], [c2wm2]]) ∧
     tsSortedMsgs ([[c2wm1], [c2wm2]] : List (List ConversationMessage)).flatten)
    ∧
    ∃ db', runCalls "s1" c2db0
        [StoreCall.update [c2wm1] "t1", StoreCall.reopen,
         StoreCall.update [c2wm1, c2wm2] "t2"] = .ok db' ∧
      ∃ s, db'.get "s1" = some s ∧
        s.history = ([[c2wm1], [c2wm2]] : List (List ConversationMessage)).flatten :=
  ⟨⟨by decide, rfl, by decide, c2w_sorted⟩,
   C2_recovery_fidelity c2db0 "s1" c6row [[c2wm1], [c2wm2]]
     [StoreCall.update [c2wm1] "t1", StoreCall.reopen,
      StoreCall.update [c2wm1, c2wm2] "t2"]
     (by decide) rfl (by decide) c2w_sorted⟩

end Aegis
